import Mathlib

/-!
# DHT wire messages (package dht_pb, file pb/message.go)

A shallow embedding of the hand-written helpers around the generated protobuf
types of the DHT: the cluster-level accessors, the conversions between wire peer
descriptors and live peers, and the two connectivity conversions.

Conventions of the embedding.

* Go int32 is an Int kept in the range -2^31 .. 2^31 - 1; every int32 operation
  is followed by wrapInt32, the two's-complement wrap-around.
* A Go pointer field of a protobuf struct is an Option (none is nil).
* A pointer to a descriptor, *Message_Peer, is an Option Message_Peer.
* The peerstore, the peers and the network are Go interfaces implemented
  outside this package; they are abstracted by the structure PeerAPI below and
  all mutation they perform is threaded through an explicit state.
-/

namespace DhtPb

/-! ## Machine integers -/

/-- Conversion to Go int32: keep the low 32 bits, read as two's complement. -/
def wrapInt32 (z : Int) : Int := (z + 2147483648) % 4294967296 - 2147483648

/-! ## The generated message types -/

/-- The struct Message_Peer of the generated code: Id is *string, Addrs is
[]string and Connection is *Message_ConnectionType (an int32 enumeration). -/
structure Message_Peer where
  Id : Option String
  Addrs : List String
  Connection : Option Int
deriving DecidableEq, Repr

/-- The struct Message of the generated code. Type is *Message_MessageType (an
int32 enumeration), Key is *string, Value is []byte, CloserPeers is
[]*Message_Peer and ClusterLevelRaw is *int32. -/
structure Message where
  Typ : Option Int
  Key : Option String
  Value : List Nat
  CloserPeers : List (Option Message_Peer)
  ClusterLevelRaw : Option Int
deriving DecidableEq, Repr

/-- Modelled from the spec: the generated getter GetClusterLevelRaw is not among
the sources. An absent optional field reads as the zero value of its type. -/
def Message.GetClusterLevelRaw (m : Message) : Int :=
  match m.ClusterLevelRaw with
  | some r => r
  | none => 0

/-- Modelled from the spec: the generated getter GetType is not among the
sources. An absent optional field reads as the zero value of its type. -/
def Message.GetType (m : Message) : Int :=
  match m.Typ with
  | some t => t
  | none => 0

/-- Modelled from the spec: the generated getter GetKey is not among the
sources. An absent optional field reads as the empty string. -/
def Message.GetKey (m : Message) : String :=
  match m.Key with
  | some k => k
  | none => ""

/-- Modelled from the spec: the generated getter GetId is not among the sources.
It is safe on a nil receiver; an absent field reads as the empty string. -/
def Message_Peer.GetId (m : Option Message_Peer) : String :=
  match m with
  | some p => (match p.Id with
    | some i => i
    | none => "")
  | none => ""

/-! ## Cluster level (message.go, GetClusterLevel and SetClusterLevel) -/

/-- Source: func (m *Message) GetClusterLevel() int.
The subtraction is an int32 subtraction; a negative result is clamped to 0. -/
def Message.GetClusterLevel (m : Message) : Int :=
  let level := wrapInt32 (m.GetClusterLevelRaw - 1)
  if level < 0 then 0 else level

/-- Source: func (m *Message) SetClusterLevel(level int).
The body converts level to int32 and stores it; nothing is added to it. -/
def Message.SetClusterLevel (m : Message) (level : Int) : Message :=
  let lvl := wrapInt32 level
  { m with ClusterLevelRaw := some lvl }

/-- Source: func NewMessage(typ Message_MessageType, key string, level int). -/
def NewMessage (typ : Int) (key : String) (level : Int) : Message :=
  let m : Message :=
    { Typ := some typ, Key := some key, Value := [], CloserPeers := [],
      ClusterLevelRaw := none }
  m.SetClusterLevel level

/-- A message as it comes off the wire with the given raw cluster level and no
other field set. -/
def rawLevelMessage (raw : Option Int) : Message :=
  { Typ := none, Key := none, Value := [], CloserPeers := [], ClusterLevelRaw := raw }

/-! ## Connectivity conversions (message.go, ConnectionType and Connectedness) -/

/-- The four named constants of inet.Connectedness (a Go int). Package net is
not among the sources, so their values are a parameter. -/
structure ConnectednessConsts where
  NotConnected : Int
  Connected : Int
  CanConnect : Int
  CannotConnect : Int
deriving DecidableEq, Repr

/-- The four named constants of Message_ConnectionType (an int32 enumeration of
the generated code, not among the sources): their values are a parameter. -/
structure ConnectionTypeConsts where
  NOT_CONNECTED : Int
  CONNECTED : Int
  CAN_CONNECT : Int
  CANNOT_CONNECT : Int
deriving DecidableEq, Repr

/-- The constants are pairwise different, as Go demands of the case constants
of one switch statement. -/
def ConnectednessConsts.Distinct (k : ConnectednessConsts) : Prop :=
  [k.NotConnected, k.Connected, k.CanConnect, k.CannotConnect].Nodup

instance (k : ConnectednessConsts) : Decidable k.Distinct := by
  unfold ConnectednessConsts.Distinct; infer_instance

/-- The constants are pairwise different, as Go demands of the case constants
of one switch statement. -/
def ConnectionTypeConsts.Distinct (w : ConnectionTypeConsts) : Prop :=
  [w.NOT_CONNECTED, w.CONNECTED, w.CAN_CONNECT, w.CANNOT_CONNECT].Nodup

instance (w : ConnectionTypeConsts) : Decidable w.Distinct := by
  unfold ConnectionTypeConsts.Distinct; infer_instance

/-- An instance of the constants of inet.Connectedness: iota order. -/
def iotaConnectedness : ConnectednessConsts :=
  { NotConnected := 0, Connected := 1, CanConnect := 2, CannotConnect := 3 }

/-- An instance of the constants of the wire enumeration: declaration order. -/
def wireConnectionTypes : ConnectionTypeConsts :=
  { NOT_CONNECTED := 0, CONNECTED := 1, CAN_CONNECT := 2, CANNOT_CONNECT := 3 }

/-- Source: func ConnectionType(c inet.Connectedness) Message_ConnectionType.
The cases are tried in the order of the source; default applies when none
matches. -/
def ConnectionType (k : ConnectednessConsts) (w : ConnectionTypeConsts) (c : Int) : Int :=
  if c = k.NotConnected then w.NOT_CONNECTED
  else if c = k.Connected then w.CONNECTED
  else if c = k.CanConnect then w.CAN_CONNECT
  else if c = k.CannotConnect then w.CANNOT_CONNECT
  else w.NOT_CONNECTED

/-- Source: func Connectedness(c Message_ConnectionType) inet.Connectedness.
The cases are tried in the order of the source; default applies when none
matches. -/
def Connectedness (k : ConnectednessConsts) (w : ConnectionTypeConsts) (c : Int) : Int :=
  if c = w.NOT_CONNECTED then k.NotConnected
  else if c = w.CONNECTED then k.Connected
  else if c = w.CAN_CONNECT then k.CanConnect
  else if c = w.CANNOT_CONNECT then k.CannotConnect
  else k.NotConnected

/-! ## The collaborators: peerstore, peers, multiaddresses, network -/

/-- The methods of peer.Peerstore, peer.Peer and the multiaddr package that
message.go calls. These packages are not among the sources, so the methods are
a parameter. The type S is the state of the peerstore together with its peer
records, P is a live peer handle, A is a parsed multiaddress and E is the Go
error value of a collaborator. Peer identities are Go strings. -/
structure PeerAPI (S P A E : Type) where
  /-- The call ps.FindOrCreate(id): may change the store; yields a peer or an error. -/
  FindOrCreate : S → String → S × Except E P
  /-- The call p.AddAddress(maddr). -/
  AddAddress : S → P → A → S
  /-- The call p.Addresses(). -/
  Addresses : S → P → List A
  /-- The call p.ID(), converted to string. -/
  ID : P → String
  /-- The call ma.NewMultiaddr(addr): parses one address string. -/
  NewMultiaddr : String → Except E A
  /-- The call maddr.String(). -/
  AddrString : A → String

/-- The method of inet.Network that message.go calls, d.Connectedness(p). -/
structure Network (P : Type) where
  Connectedness : P → Int

deriving instance DecidableEq for Except

/-- A run-time panic of the Go program. -/
inductive Panic where
  | nilDereference
  | indexOutOfRange
deriving DecidableEq, Repr

/-- The error values built in message.go, around the errors E of the
collaborators. -/
inductive Err (E : Type) where
  /-- An error handed through unchanged, as Addresses does with a parse error. -/
  | ext (e : E)
  /-- The value errors.New("MessagePeer is nil"). -/
  | nilMessagePeer
  /-- The value fmt.Errorf("Failed to get peer from peerstore: %s", err). -/
  | peerstoreFailed (e : E)
  /-- The value fmt.Errorf("Received peer with bad or missing addresses: %s", pbp.Addrs). -/
  | badAddresses (addrs : List String)
deriving DecidableEq, Repr

/-! ## Peers to wire descriptors (peerToPBPeer, RawPeersToPBPeers, PeersToPBPeers) -/

/-- The Go idiom: out := make([]T, len(xs)); for i, x := range xs { out[i] = f(x) }.
The argument out is the slice as it stands before index i is assigned. -/
def fillLoop {X Y : Type} (f : X → Y) : List X → Nat → List Y → List Y
  | [], _, out => out
  | x :: rest, i, out => fillLoop f rest (i + 1) (out.set i (f x))

/-- Source: func peerToPBPeer(p peer.Peer) *Message_Peer. -/
def peerToPBPeer {S P A E : Type} (api : PeerAPI S P A E) (s : S) (p : P) : Message_Peer :=
  let pbp : Message_Peer := { Id := none, Addrs := [], Connection := none }
  let maddrs := api.Addresses s p
  let pbp := { pbp with
    Addrs := fillLoop api.AddrString maddrs 0 (List.replicate maddrs.length "") }
  let pid := api.ID p
  { pbp with Id := some pid }

/-- Source: func RawPeersToPBPeers(peers []peer.Peer) []*Message_Peer. -/
def RawPeersToPBPeers {S P A E : Type} (api : PeerAPI S P A E) (s : S) (peers : List P) :
    List (Option Message_Peer) :=
  fillLoop (fun p => some (peerToPBPeer api s p)) peers 0 (List.replicate peers.length none)

/-- The loop of PeersToPBPeers: i is the index reached, pbps the slice (whose
elements are updated through their pointers), rest the elements still to visit. -/
def PeersToPBPeers.loop {P : Type} (k : ConnectednessConsts) (w : ConnectionTypeConsts)
    (d : Network P) (peers : List P) :
    List (Option Message_Peer) → Nat → List (Option Message_Peer) →
      Except Panic (List (Option Message_Peer))
  | [], _, pbps => .ok pbps
  | pbp :: rest, i, pbps =>
    match peers.get? i with
    | none => .error .indexOutOfRange
    | some p =>
      let c := ConnectionType k w (d.Connectedness p)
      match pbp with
      | none => .error .nilDereference
      | some m => PeersToPBPeers.loop k w d peers rest (i + 1)
          (pbps.set i (some { m with Connection := some c }))

/-- Source: func PeersToPBPeers(d inet.Network, peers []peer.Peer) []*Message_Peer. -/
def PeersToPBPeers {S P A E : Type} (k : ConnectednessConsts) (w : ConnectionTypeConsts)
    (api : PeerAPI S P A E) (s : S) (d : Network P) (peers : List P) :
    Except Panic (List (Option Message_Peer)) :=
  let pbps := RawPeersToPBPeers api s peers
  PeersToPBPeers.loop k w d peers pbps 0 pbps

/-! ## Wire descriptors to peers (Addresses, PBPeerToPeer, PBPeersToPeers) -/

/-- The loop of Message_Peer.Addresses: maddrs holds the addresses parsed so
far; the first parse error ends the loop and is returned as it is. -/
def Message_Peer.Addresses.loop {S P A E : Type} (api : PeerAPI S P A E) :
    List String → List A → Except (Err E) (List A)
  | [], maddrs => .ok maddrs
  | addr :: rest, maddrs =>
    match api.NewMultiaddr addr with
    | .error e => .error (.ext e)
    | .ok a => Message_Peer.Addresses.loop api rest (maddrs ++ [a])

/-- Source: func (m *Message_Peer) Addresses() ([]ma.Multiaddr, error). -/
def Message_Peer.Addresses {S P A E : Type} (api : PeerAPI S P A E)
    (m : Option Message_Peer) : Except (Err E) (List A) :=
  match m with
  | none => .error .nilMessagePeer
  | some d => Message_Peer.Addresses.loop api d.Addrs []

/-- Source: func PBPeerToPeer(ps peer.Peerstore, pbp *Message_Peer) (peer.Peer, error).
The outer result is the panic of reading pbp.Addrs through a nil pointer while
the error message is built; the inner one is the pair (peer, error) returned. -/
def PBPeerToPeer {S P A E : Type} (api : PeerAPI S P A E) (s : S)
    (pbp : Option Message_Peer) : Except Panic (S × Except (Err E) P) :=
  match api.FindOrCreate s (Message_Peer.GetId pbp) with
  | (s1, .error err) => .ok (s1, .error (.peerstoreFailed err))
  | (s1, .ok p) =>
    match Message_Peer.Addresses api pbp with
    | .error _ =>
      match pbp with
      | none => .error .nilDereference
      | some d => .ok (s1, .error (.badAddresses d.Addrs))
    | .ok maddrs => .ok (maddrs.foldl (fun st maddr => api.AddAddress st p maddr) s1, .ok p)

/-- The loop of PBPeersToPeers: i is the index reached, peers and errs the two
slices as they stand. -/
def PBPeersToPeers.loop {S P A E : Type} (api : PeerAPI S P A E) :
    List (Option Message_Peer) → Nat → S → List P → List (Option (Err E)) →
      Except Panic (S × List P × List (Option (Err E)))
  | [], _, s, peers, errs => .ok (s, peers, errs)
  | pbp :: rest, i, s, peers, errs =>
    match PBPeerToPeer api s pbp with
    | .error pn => .error pn
    | .ok (s1, .error err) => PBPeersToPeers.loop api rest (i + 1) s1 peers (errs.set i (some err))
    | .ok (s1, .ok p) => PBPeersToPeers.loop api rest (i + 1) s1 (peers ++ [p]) errs

/-- Source: func PBPeersToPeers(ps peer.Peerstore, pbps []*Message_Peer) ([]peer.Peer, []error).
A nil error is none. -/
def PBPeersToPeers {S P A E : Type} (api : PeerAPI S P A E) (s : S)
    (pbps : List (Option Message_Peer)) : Except Panic (S × List P × List (Option (Err E))) :=
  PBPeersToPeers.loop api pbps 0 s [] (List.replicate pbps.length none)

/-- The specification-side reading of a batch conversion: PBPeerToPeer is run on each
descriptor in turn, every run starting from the store the previous one left,
and the individual results are listed in input order. -/
def convertEach {S P A E : Type} (api : PeerAPI S P A E) :
    S → List (Option Message_Peer) → Except Panic (S × List (Except (Err E) P))
  | s, [] => .ok (s, [])
  | s, pbp :: rest =>
    match PBPeerToPeer api s pbp with
    | .error pn => .error pn
    | .ok (s1, r) =>
      match convertEach api s1 rest with
      | .error pn => .error pn
      | .ok (s2, rs) => .ok (s2, r :: rs)

/-- The peer of a successful conversion. -/
def peerOf {P E : Type} : Except E P → Option P
  | .ok p => some p
  | .error _ => none

/-- The error of a failed conversion; none is the nil error. -/
def errorOf {P E : Type} : Except E P → Option E
  | .ok _ => none
  | .error e => some e

/-- The specification-side reading of the two slices of a batch: the peers of the
successful conversions in input order, and the error or nil of each one. -/
def collect {S P E : Type} (r : S × List (Except (Err E) P)) :
    S × List P × List (Option (Err E)) :=
  (r.1, r.2.filterMap peerOf, r.2.map errorOf)

/-! ## A small in-memory instance of the collaborators

The store is a list of records (identity, addresses); a peer handle is the
identity of its record; an address string parses when it starts with a slash
and has something after it. -/

/-- Adds an address to the record of peer p, once. -/
def memAddAddress (s : List (String × List String)) (p : String) (a : String) :
    List (String × List String) :=
  s.map (fun r => if r.1 = p ∧ a ∉ r.2 then (r.1, r.2 ++ [a]) else r)

/-- Finds the record of an identity or creates an empty one; refuses the empty identity. -/
def memFindOrCreate (s : List (String × List String)) (id : String) :
    List (String × List String) × Except String String :=
  if id = "" then (s, .error "empty id")
  else if id ∈ s.map Prod.fst then (s, .ok id)
  else (s ++ [(id, [])], .ok id)

/-- Parses an address string: a slash followed by at least one more character. -/
def memNewMultiaddr (a : String) : Except String String :=
  match a.data with
  | '/' :: _ :: _ => .ok a
  | _ => .error "invalid multiaddr"

/-- The in-memory collaborators. -/
def memAPI : PeerAPI (List (String × List String)) String String String where
  FindOrCreate := memFindOrCreate
  AddAddress := memAddAddress
  Addresses := fun s p => (s.filter (fun r => r.1 = p)).flatMap Prod.snd
  ID := fun p => p
  NewMultiaddr := memNewMultiaddr
  AddrString := fun a => a

/-- A descriptor with the given identity and address strings. -/
def mkPeer (id : String) (addrs : List String) : Option Message_Peer :=
  some { Id := some id, Addrs := addrs, Connection := none }

/-- Seven descriptors; the fourth carries an address string that does not parse. -/
def sevenPeers : List (Option Message_Peer) :=
  [mkPeer "p1" ["/ip4/10.0.0.1"], mkPeer "p2" ["/ip4/10.0.0.2"], mkPeer "p3" ["/ip4/10.0.0.3"],
   mkPeer "p4" ["/ip4/10.0.0.4", "garbage"], mkPeer "p5" ["/ip4/10.0.0.5"],
   mkPeer "p6" ["/ip4/10.0.0.6"], mkPeer "p7" ["/ip4/10.0.0.7"]]

/-- A descriptor whose two address strings parse. -/
def goodAddrsPeer : Message_Peer :=
  { Id := some "p9", Addrs := ["/ip4/10.0.0.9", "/ip6/::1"], Connection := none }

/-- A store with two peers: the first has two addresses, the second none. -/
def twoPeersStore : List (String × List String) :=
  [("a", ["/ip4/10.0.0.1", "/ip4/10.0.0.2"]), ("b", [])]

/-- The store after the seven descriptors were converted from an empty store:
the fourth peer was created but received none of its addresses. -/
def sevenPeersStore : List (String × List String) :=
  [("p1", ["/ip4/10.0.0.1"]), ("p2", ["/ip4/10.0.0.2"]), ("p3", ["/ip4/10.0.0.3"]),
   ("p4", []), ("p5", ["/ip4/10.0.0.5"]), ("p6", ["/ip4/10.0.0.6"]),
   ("p7", ["/ip4/10.0.0.7"])]

/-- A descriptor whose address list is empty. -/
def emptyAddrsPeer : Message_Peer := { Id := some "q", Addrs := [], Connection := none }

/-- A descriptor whose second address string does not parse. -/
def badAddrsPeer : Message_Peer :=
  { Id := some "p4", Addrs := ["/ip4/10.0.0.4", "garbage"], Connection := none }

end DhtPb

/-! # The lookup of a value (package dht)

The query engine itself is not among the sources, only its test file
ext_test.go is. The definitions of this part follow sections 4.1, 4.3, 4.4, 5
and 8 of the specification. Time is counted in ticks from the start of the
lookup; a peer identity is the number its bytes spell, so that identity byte
order is the order of numbers. -/

namespace Dht

/-- Modelled from the spec: the body of a response to GET_VALUE (section 4.4).
The flag conforms tells that its type and key are those of the request; value
is the optional value; closerPeers are the closer-peer descriptors that decode
to a peer (section 4.2). -/
structure Reply where
  conforms : Bool
  value : Option (List Nat)
  closerPeers : List Nat
deriving DecidableEq, Repr

/-- Modelled from the spec: what SendRequest gives for one request (section
4.3): a response after some delay, a transport error after some delay, or no
response ever. -/
inductive Rpc where
  | reply (delay : Nat) (r : Reply)
  | transportError (delay : Nat)
  | silent
deriving DecidableEq, Repr

/-- Modelled from the spec: the terminal states of the GetValue state machine
(section 4.4). Found carries the value and the peer it came from. -/
inductive Outcome where
  | Found (value : List Nat) (source : Nat)
  | NotFound
  | TimedOut
deriving DecidableEq, Repr

/-- Modelled from the spec: the constants K (bucket size, the bound on the
seed of the frontier) and alpha (the bound on outstanding requests). -/
structure Config where
  K : Nat
  alpha : Nat
deriving DecidableEq, Repr

/-- Modelled from the spec: the query state of one lookup (section 3), with the
requests in flight (peer and tick of sending) and the clock. -/
structure QueryState where
  now : Nat
  frontier : List Nat
  queried : List Nat
  inflight : List (Nat × Nat)
  replied : Nat
deriving DecidableEq, Repr

/-- Modelled from the spec: the order of ClosestPeers (section 4.1), ascending
distance to the key, ties broken by identity byte order. -/
def nearerOrEqual (dist : Nat → Nat) (p q : Nat) : Prop :=
  dist p < dist q ∨ (dist p = dist q ∧ p ≤ q)

instance (dist : Nat → Nat) : DecidableRel (nearerOrEqual dist) := by
  intro p q; unfold nearerOrEqual; infer_instance

/-- Modelled from the spec: ClosestPeers(key, count) of the routing table
(section 4.1): up to count known peers in ascending distance; dist is the
distance of an identity to the key. -/
def ClosestPeers (dist : Nat → Nat) (known : List Nat) (count : Nat) : List Nat :=
  (known.dedup.insertionSort (nearerOrEqual dist)).take count

/-- Modelled from the spec: a peer enters the frontier by distance, behind the
members of equal distance (the re-sort is stable, section 4.4). -/
def insertByDistance (dist : Nat → Nat) (p : Nat) : List Nat → List Nat
  | [] => [p]
  | q :: qs => if dist p < dist q then p :: q :: qs else q :: insertByDistance dist p qs

/-- Modelled from the spec: the closer peers of a response join the frontier
unless already queried or already in the frontier (section 4.4). -/
def addCloser (dist : Nat → Nat) (st : QueryState) (closer : List Nat) : QueryState :=
  closer.foldl (fun acc p =>
    if p ∈ acc.queried ∨ p ∈ acc.frontier then acc
    else { acc with frontier := insertByDistance dist p acc.frontier }) st

/-- Modelled from the spec: requests go to the nearest unqueried members of the
frontier while fewer than alpha are outstanding (section 4.4). -/
def dispatch (cfg : Config) (st : QueryState) : QueryState :=
  let n := cfg.alpha - st.inflight.length
  let sent := st.frontier.take n
  { st with
    frontier := st.frontier.drop n
    queried := st.queried ++ sent
    inflight := st.inflight ++ sent.map (fun p => (p, st.now)) }

/-- Modelled from the spec: the tick at which a request sent at tick sent is
answered or fails; none when no response ever arrives (section 4.3). -/
def arrival (net : Nat → Rpc) (p : Nat) (sent : Nat) : Option Nat :=
  match net p with
  | .reply delay _ => some (sent + delay)
  | .transportError delay => some (sent + delay)
  | .silent => none

/-- The requests in flight that will be answered or fail, with their tick. -/
def arrivals (net : Nat → Rpc) (st : QueryState) : List (Nat × Nat) :=
  st.inflight.filterMap (fun f => (arrival net f.1 f.2).map (fun t => (f.1, t)))

/-- Modelled from the spec: responses are consumed in arrival order (section
5); of two arriving at the same tick the one sent first is taken. -/
def earliest : List (Nat × Nat) → Option (Nat × Nat)
  | [] => none
  | x :: xs =>
    match earliest xs with
    | none => some x
    | some y => if y.2 < x.2 then some y else some x

/-- Modelled from the spec: one round of Probing (section 4.4). Requests are
dispatched; with nothing outstanding and an empty frontier the lookup ends in
NotFound; when the deadline comes before the next response it ends in TimedOut;
otherwise the next response is consumed: a value ends the lookup in Found,
closer peers join the frontier, and an empty, non-conforming or failed exchange
only exhausts that peer. -/
def step (cfg : Config) (dist : Nat → Nat) (net : Nat → Rpc) (deadline : Nat)
    (st : QueryState) : Outcome ⊕ QueryState :=
  let st := dispatch cfg st
  if st.inflight = [] ∧ st.frontier = [] then .inl .NotFound
  else
    match earliest (arrivals net st) with
    | none => .inl .TimedOut
    | some (p, t) =>
      if deadline ≤ t then .inl .TimedOut
      else
        let st := { st with now := t, inflight := st.inflight.filter (fun f => f.1 ≠ p) }
        match net p with
        | .reply _ r =>
          let st := { st with replied := st.replied + 1 }
          if r.conforms then
            match r.value with
            | some v => .inl (.Found v p)
            | none => .inr (addCloser dist st r.closerPeers)
          else .inr st
        | .transportError _ => .inr st
        | .silent => .inr st

/-- Rounds of Probing until a terminal state; none when the rounds allowed are
used up before one is reached. -/
def probe (cfg : Config) (dist : Nat → Nat) (net : Nat → Rpc) (deadline : Nat) :
    Nat → QueryState → Option Outcome
  | 0, _ => none
  | fuel + 1, st =>
    match step cfg dist net deadline st with
    | .inl o => some o
    | .inr st1 => probe cfg dist net deadline fuel st1

/-- Modelled from the spec: GetValue(key, timeout) (sections 4.4 and 6). The
frontier is seeded with the K closest known peers; an empty frontier ends the
lookup in NotFound at once; otherwise Probing runs. The argument known is the
content of the routing table, net the behaviour of the remote peers. -/
def GetValue (cfg : Config) (dist : Nat → Nat) (known : List Nat) (net : Nat → Rpc)
    (timeout : Nat) (fuel : Nat) : Option Outcome :=
  let frontier := ClosestPeers dist known cfg.K
  if frontier = [] then some .NotFound
  else probe cfg dist net timeout fuel
    { now := 0, frontier := frontier, queried := [], inflight := [], replied := 0 }

/-- No response and no transport error comes from this exchange sooner than
deadline ticks after the request. -/
def quietUntil (deadline : Nat) : Rpc → Prop
  | .reply delay _ => deadline ≤ delay
  | .transportError delay => deadline ≤ delay
  | .silent => True

/-- No response comes from this exchange sooner than deadline ticks after the
request (a transport error is not a response). -/
def noReplyUntil (deadline : Nat) : Rpc → Prop
  | .reply delay _ => deadline ≤ delay
  | .transportError _ => True
  | .silent => True

/-- The state in which Probing starts: the frontier seeded with the K closest
known peers, nothing queried, nothing in flight, the clock at 0. -/
def seedState (cfg : Config) (dist : Nat → Nat) (known : List Nat) : QueryState :=
  { now := 0, frontier := ClosestPeers dist known cfg.K, queried := [], inflight := [],
    replied := 0 }

/-- The state of Probing after n rounds; none when the lookup has ended before. -/
def stateAfter (cfg : Config) (dist : Nat → Nat) (net : Nat → Rpc) (deadline : Nat) :
    Nat → QueryState → Option QueryState
  | 0, st => some st
  | n + 1, st =>
    match step cfg dist net deadline st with
    | .inl _ => none
    | .inr st1 => stateAfter cfg dist net deadline n st1

/-- Every request in flight is answered before the deadline by a response that
carries no value. -/
def answeredInTime (net : Nat → Rpc) (deadline : Nat) (st : QueryState) : Prop :=
  ∀ f ∈ st.inflight, ∃ delay r, net f.1 = .reply delay r ∧ f.2 + delay < deadline ∧
    r.value = none

/-- Every peer contacted in the course of the lookup replies before the
deadline with a response that carries no value: in every round reached, the
requests in flight after dispatching are answered in time. -/
def everyContactedPeerRepliesEmpty (cfg : Config) (dist : Nat → Nat) (net : Nat → Rpc)
    (deadline : Nat) (st0 : QueryState) : Prop :=
  ∀ n st, stateAfter cfg dist net deadline n st0 = some st →
    answeredInTime net deadline (dispatch cfg st)

/-- The state once the response of peer p, arrived at tick t, is taken off the
requests in flight and counted. -/
def consume (st : QueryState) (p t : Nat) : QueryState :=
  { st with now := t, inflight := st.inflight.filter (fun f => f.1 ≠ p),
            replied := st.replied + 1 }

/-- The requests in flight are at most alpha, and none of them is answered
before the present tick. -/
def onSchedule (cfg : Config) (net : Nat → Rpc) (st : QueryState) : Prop :=
  st.inflight.length ≤ cfg.alpha ∧
    ∀ f ∈ st.inflight, ∀ t, arrival net f.1 f.2 = some t → st.now ≤ t

/-- The number of requests in flight whose response is due at the present tick. -/
def dueNow (net : Nat → Rpc) (st : QueryState) : Nat :=
  (st.inflight.filter (fun f => decide (arrival net f.1 f.2 = some st.now))).length

/-- A bound on the rounds still to come before the deadline: in each tick left
at most alpha responses are consumed besides those due at the present tick. -/
def roundsLeft (cfg : Config) (net : Nat → Rpc) (deadline : Nat) (st : QueryState) : Nat :=
  (deadline - st.now) * (cfg.alpha + 1) + dueNow net st

/-- Remote peers without the value: peer 7 answers after one tick and names
peer 8 as closer; peer 8 answers after two ticks and names peer 7; every other
peer answers after one tick and names nobody. -/
def relayNet : Nat → Rpc :=
  fun p =>
    if p = 7 then .reply 1 { conforms := true, value := none, closerPeers := [8] }
    else if p = 8 then .reply 2 { conforms := true, value := none, closerPeers := [7] }
    else .reply 1 { conforms := true, value := none, closerPeers := [] }

/-- The remote peers of the second part of TestGetFailures: every request is
answered after one tick with the type echoed, no value and no closer peers. -/
def emptyReplyNet : Nat → Rpc :=
  fun _ => .reply 1 { conforms := true, value := none, closerPeers := [] }

/-- The constants of a node with bucket size 20 and three concurrent requests. -/
def testConfig : Config := { K := 20, alpha := 3 }

/-- The remote peers of the first part of TestGetFailures: nobody ever answers. -/
def silentNet : Nat → Rpc := fun _ => .silent

/-- Remote peers towards which every request fails transport-side at once. -/
def failingNet : Nat → Rpc := fun _ => .transportError 0

/-- The distance used in the examples: the identity read as a number. -/
def testDist : Nat → Nat := fun p => p

end Dht

/-! # Theorems: cluster level and connectivity -/

namespace DhtPb

/-- A value in the int32 range is unchanged by the conversion to int32. -/
theorem wrapInt32_of_range (z : Int) (h1 : -2147483648 ≤ z) (h2 : z ≤ 2147483647) :
    wrapInt32 z = z := by
  unfold wrapInt32; omega

/-- The conversion to int32 lands in the int32 range. -/
theorem wrapInt32_range (z : Int) : -2147483648 ≤ wrapInt32 z ∧ wrapInt32 z ≤ 2147483647 := by
  unfold wrapInt32; omega

/-- The raw level right after SetClusterLevel is the level converted to int32. -/
theorem getClusterLevelRaw_setClusterLevel (m : Message) (level : Int) :
    (m.SetClusterLevel level).GetClusterLevelRaw = wrapInt32 level := by
  simp [Message.SetClusterLevel, Message.GetClusterLevelRaw]

/-- Reading back a level from 1 to 2^31 - 1 right after setting it gives one less. -/
theorem getClusterLevel_setClusterLevel_eq (m : Message) (n : Int)
    (h1 : 1 ≤ n) (h2 : n ≤ 2147483647) :
    (m.SetClusterLevel n).GetClusterLevel = n - 1 := by
  have hraw := getClusterLevelRaw_setClusterLevel m n
  rw [wrapInt32_of_range n (by omega) h2] at hraw
  unfold Message.GetClusterLevel
  simp only [hraw]
  rw [wrapInt32_of_range (n - 1) (by omega) (by omega)]
  simp; omega

/-- C1 (evaluation of the code): SetClusterLevel stores the level without the
bias that GetClusterLevel removes, so for every level n from 1 to 2^31 - 1
SetClusterLevel(n) followed by GetClusterLevel() returns n - 1, not n. -/
theorem setClusterLevel_getClusterLevel_loses_one (m : Message) (n : Int)
    (h1 : 1 ≤ n) (h2 : n ≤ 2147483647) :
    (m.SetClusterLevel n).GetClusterLevel = n - 1 ∧ (m.SetClusterLevel n).GetClusterLevel ≠ n := by
  have hget := getClusterLevel_setClusterLevel_eq m n h1 h2
  refine ⟨hget, ?_⟩
  rw [hget]; omega

/-- Witness of setClusterLevel_getClusterLevel_loses_one: level 1 on a message
built by NewMessage reads back as 0. -/
theorem setClusterLevel_getClusterLevel_loses_one_witness :
    ((NewMessage 2 "key" 0).SetClusterLevel 1).GetClusterLevel = 1 - 1 ∧
      ((NewMessage 2 "key" 0).SetClusterLevel 1).GetClusterLevel ≠ 1 :=
  setClusterLevel_getClusterLevel_loses_one (NewMessage 2 "key" 0) 1 (by decide) (by decide)

/-- C2 (evaluation of the code): for every level n from 0 to 2^31 - 1
SetClusterLevel(n) stores n itself in ClusterLevelRaw, not the biased n + 1; in
particular level 0 is stored as wire value 0. -/
theorem setClusterLevel_stores_unbiased (m : Message) (n : Int)
    (h1 : 0 ≤ n) (h2 : n ≤ 2147483647) :
    (m.SetClusterLevel n).ClusterLevelRaw = some n ∧
      (m.SetClusterLevel n).ClusterLevelRaw ≠ some (n + 1) := by
  have h : (m.SetClusterLevel n).ClusterLevelRaw = some n := by
    simp [Message.SetClusterLevel, wrapInt32_of_range n (by omega) h2]
  refine ⟨h, ?_⟩
  rw [h]; simp

/-- Witness of setClusterLevel_stores_unbiased: level 0 is stored as 0, not 1. -/
theorem setClusterLevel_stores_unbiased_witness :
    ((NewMessage 2 "key" 7).SetClusterLevel 0).ClusterLevelRaw = some 0 ∧
      ((NewMessage 2 "key" 7).SetClusterLevel 0).ClusterLevelRaw ≠ some (0 + 1) :=
  setClusterLevel_stores_unbiased (NewMessage 2 "key" 7) 0 (by decide) (by decide)

/-- C8 (evaluation of the code): the message of NewMessage(typ, key, level) has
GetType() = typ and GetKey() = key, but for every level from 1 to 2^31 - 1 its
GetClusterLevel() is level - 1, not level. -/
theorem newMessage_getters (typ : Int) (key : String) (level : Int)
    (h1 : 1 ≤ level) (h2 : level ≤ 2147483647) :
    (NewMessage typ key level).GetType = typ ∧ (NewMessage typ key level).GetKey = key ∧
      (NewMessage typ key level).GetClusterLevel = level - 1 ∧
      (NewMessage typ key level).GetClusterLevel ≠ level := by
  have hget : (NewMessage typ key level).GetClusterLevel = level - 1 :=
    getClusterLevel_setClusterLevel_eq _ level h1 h2
  refine ⟨?_, ?_, hget, ?_⟩
  · simp [NewMessage, Message.SetClusterLevel, Message.GetType]
  · simp [NewMessage, Message.SetClusterLevel, Message.GetKey]
  · rw [hget]; omega

/-- Witness of newMessage_getters at type 1, key "hello" and level 3. -/
theorem newMessage_getters_witness :
    (NewMessage 1 "hello" 3).GetType = 1 ∧ (NewMessage 1 "hello" 3).GetKey = "hello" ∧
      (NewMessage 1 "hello" 3).GetClusterLevel = 3 - 1 ∧
      (NewMessage 1 "hello" 3).GetClusterLevel ≠ 3 :=
  newMessage_getters 1 "hello" 3 (by decide) (by decide)

/-- C9: ConnectionType and Connectedness are mutually inverse on the four
connectivity states and the four wire connection types. -/
theorem connectionType_connectedness_inverse (k : ConnectednessConsts)
    (w : ConnectionTypeConsts) (hk : k.Distinct) (hw : w.Distinct) :
    (∀ c ∈ [k.NotConnected, k.CanConnect, k.Connected, k.CannotConnect],
        Connectedness k w (ConnectionType k w c) = c) ∧
    (∀ t ∈ [w.NOT_CONNECTED, w.CAN_CONNECT, w.CONNECTED, w.CANNOT_CONNECT],
        ConnectionType k w (Connectedness k w t) = t) := by
  simp only [ConnectednessConsts.Distinct, ConnectionTypeConsts.Distinct, List.nodup_cons,
    List.mem_cons, List.mem_singleton, not_or, List.not_mem_nil, not_false_eq_true,
    List.nodup_nil, and_true] at hk hw
  obtain ⟨⟨k1, k2, k3⟩, ⟨k4, k5⟩, k6⟩ := hk
  obtain ⟨⟨w1, w2, w3⟩, ⟨w4, w5⟩, w6⟩ := hw
  constructor
  · intro c hc
    simp only [List.mem_cons, List.mem_singleton, List.not_mem_nil, or_false] at hc
    rcases hc with rfl | rfl | rfl | rfl <;>
      simp [ConnectionType, Connectedness, *, Ne.symm, eq_comm]
  · intro t ht
    simp only [List.mem_cons, List.mem_singleton, List.not_mem_nil, or_false] at ht
    rcases ht with rfl | rfl | rfl | rfl <;>
      simp [ConnectionType, Connectedness, *, Ne.symm, eq_comm]

/-- Witness of connectionType_connectedness_inverse at the constants in
declaration order. -/
theorem connectionType_connectedness_inverse_witness :
    (∀ c ∈ [iotaConnectedness.NotConnected, iotaConnectedness.CanConnect,
          iotaConnectedness.Connected, iotaConnectedness.CannotConnect],
        Connectedness iotaConnectedness wireConnectionTypes
          (ConnectionType iotaConnectedness wireConnectionTypes c) = c) ∧
    (∀ t ∈ [wireConnectionTypes.NOT_CONNECTED, wireConnectionTypes.CAN_CONNECT,
          wireConnectionTypes.CONNECTED, wireConnectionTypes.CANNOT_CONNECT],
        ConnectionType iotaConnectedness wireConnectionTypes
          (Connectedness iotaConnectedness wireConnectionTypes t) = t) :=
  connectionType_connectedness_inverse iotaConnectedness wireConnectionTypes
    (by decide) (by decide)

end DhtPb

/-! # Theorems: peers to wire descriptors -/

namespace DhtPb

/-- The make-and-fill idiom computes a map: started behind a filled part pre,
over a part of the right length, it leaves pre followed by the images. -/
theorem fillLoop_append {X Y : Type} (f : X → Y) :
    ∀ (xs : List X) (pre mid : List Y), mid.length = xs.length →
      fillLoop f xs pre.length (pre ++ mid) = pre ++ xs.map f := by
  intro xs
  induction xs with
  | nil =>
    intro pre mid h
    have hm : mid = [] := List.length_eq_zero.mp (by simpa using h)
    simp [fillLoop, hm]
  | cons x rest ih =>
    intro pre mid h
    cases mid with
    | nil => simp at h
    | cons y mid1 =>
      have hlen : mid1.length = rest.length := by simpa using h
      have hset : (pre ++ y :: mid1).set pre.length (f x) = (pre ++ [f x]) ++ mid1 := by
        simp [List.set_append]
      have hi : pre.length + 1 = (pre ++ [f x]).length := by simp
      simp only [fillLoop]
      rw [hset, hi, ih (pre ++ [f x]) mid1 hlen]
      simp

/-- The make-and-fill idiom over a fresh slice is the map of the function. -/
theorem fillLoop_replicate {X Y : Type} (f : X → Y) (xs : List X) (z : Y) :
    fillLoop f xs 0 (List.replicate xs.length z) = xs.map f := by
  have h := fillLoop_append f xs [] (List.replicate xs.length z) (by simp)
  simpa using h

/-- The descriptor peerToPBPeer builds for a peer. -/
theorem peerToPBPeer_eq {S P A E : Type} (api : PeerAPI S P A E) (s : S) (p : P) :
    peerToPBPeer api s p =
      { Id := some (api.ID p), Addrs := (api.Addresses s p).map api.AddrString,
        Connection := none } := by
  simp [peerToPBPeer, fillLoop_replicate]

/-- RawPeersToPBPeers is the map of peerToPBPeer, every pointer non-nil. -/
theorem RawPeersToPBPeers_eq_map {S P A E : Type} (api : PeerAPI S P A E) (s : S)
    (peers : List P) :
    RawPeersToPBPeers api s peers = peers.map (fun p => some (peerToPBPeer api s p)) := by
  simp [RawPeersToPBPeers, fillLoop_replicate]

/-- The loop of PeersToPBPeers, started behind the part pre already visited,
does not panic and sets the Connection of every remaining descriptor. -/
theorem PeersToPBPeers_loop_eq {P : Type} (k : ConnectednessConsts) (w : ConnectionTypeConsts)
    (d : Network P) :
    ∀ (ms : List Message_Peer) (ps ppre : List P) (pre : List (Option Message_Peer)),
      ms.length = ps.length → ppre.length = pre.length →
      PeersToPBPeers.loop k w d (ppre ++ ps) (ms.map some) pre.length (pre ++ ms.map some)
        = .ok (pre ++ List.zipWith (fun m p =>
            some { m with Connection := some (ConnectionType k w (d.Connectedness p)) }) ms ps) := by
  intro ms
  induction ms with
  | nil =>
    intro ps ppre pre _ _
    simp [PeersToPBPeers.loop]
  | cons m rest ih =>
    intro ps ppre pre h hp
    cases ps with
    | nil => simp at h
    | cons q ps1 =>
      have hlen : rest.length = ps1.length := by simpa using h
      have hget : (ppre ++ q :: ps1).get? pre.length = some q := by
        rw [← hp, List.get?_eq_getElem?, List.getElem?_append_right (le_refl _)]; simp
      have hset : ∀ x : Option Message_Peer,
          (pre ++ some m :: rest.map some).set pre.length x = (pre ++ [x]) ++ rest.map some := by
        intro x; simp [List.set_append]
      have hi : ∀ x : Option Message_Peer, pre.length + 1 = (pre ++ [x]).length := by
        intro x; simp
      have hpp : ppre ++ q :: ps1 = (ppre ++ [q]) ++ ps1 := by simp
      simp only [List.map_cons, PeersToPBPeers.loop, hget, hset]
      rw [hi, hpp, ih ps1 (ppre ++ [q]) _ hlen (by simp [hp])]
      simp

/-- C6: PeersToPBPeers(d, peers) returns (without a panic) a list of the same
length as peers whose i-th descriptor is the one of peerToPBPeer for peers[i]
with its Connection field set to ConnectionType(d.Connectedness(peers[i])). -/
theorem PeersToPBPeers_connection {S P A E : Type} (k : ConnectednessConsts)
    (w : ConnectionTypeConsts) (api : PeerAPI S P A E) (s : S) (d : Network P)
    (peers : List P) :
    ∃ pbps, PeersToPBPeers k w api s d peers = .ok pbps ∧ pbps.length = peers.length ∧
      ∀ i, pbps.get? i = (peers.get? i).map (fun p =>
        some { Id := some (api.ID p), Addrs := (api.Addresses s p).map api.AddrString,
               Connection := some (ConnectionType k w (d.Connectedness p)) }) := by
  have h := PeersToPBPeers_loop_eq k w d (peers.map (peerToPBPeer api s)) peers [] []
    (by simp) rfl
  simp only [List.nil_append, List.length_nil, List.map_map] at h
  have hraw : RawPeersToPBPeers api s peers
      = List.map (some ∘ peerToPBPeer api s) peers := by
    rw [RawPeersToPBPeers_eq_map]; rfl
  refine ⟨_, (by unfold PeersToPBPeers; simp only [hraw]; exact h), ?_, ?_⟩
  · simp
  · intro i
    simp only [List.zipWith_map_left, List.zipWith_same, List.get?_eq_getElem?, List.getElem?_map,
      peerToPBPeer_eq]

/-- C7: RawPeersToPBPeers(peers) returns a list of the same length as peers
whose i-th descriptor has the identity of peers[i] as Id, and as Addrs the
string forms of the addresses of peers[i], in the same order and number; its
Connection is unset. -/
theorem RawPeersToPBPeers_descriptors {S P A E : Type} (api : PeerAPI S P A E) (s : S)
    (peers : List P) :
    (RawPeersToPBPeers api s peers).length = peers.length ∧
    (∀ i, (RawPeersToPBPeers api s peers).get? i = (peers.get? i).map (fun p =>
      some { Id := some (api.ID p), Addrs := (api.Addresses s p).map api.AddrString,
             Connection := none })) ∧
    (∀ p, ((api.Addresses s p).map api.AddrString).length = (api.Addresses s p).length) := by
  refine ⟨?_, ?_, ?_⟩
  · simp [RawPeersToPBPeers_eq_map]
  · intro i
    simp [RawPeersToPBPeers_eq_map, peerToPBPeer_eq]
  · intro p; simp

end DhtPb

/-! # Theorems: wire descriptors to peers -/

namespace DhtPb

/-- On a descriptor that is not nil PBPeerToPeer returns: it does not panic. -/
theorem PBPeerToPeer_some_returns {S P A E : Type} (api : PeerAPI S P A E) (s : S)
    (d : Message_Peer) : ∃ r, PBPeerToPeer api s (some d) = .ok r := by
  unfold PBPeerToPeer
  rcases api.FindOrCreate s (Message_Peer.GetId (some d)) with ⟨s1, e | p⟩
  · exact ⟨_, rfl⟩
  · cases h : Message_Peer.Addresses api (some d) with
    | error e => exact ⟨_, rfl⟩
    | ok maddrs => exact ⟨_, rfl⟩

/-- On a nil descriptor PBPeerToPeer panics as soon as the peerstore has a peer
for the empty identity: the error message reads pbp.Addrs. -/
theorem PBPeerToPeer_nil_panics {S P A E : Type} (api : PeerAPI S P A E) (s s1 : S) (p : P)
    (h : api.FindOrCreate s "" = (s1, .ok p)) :
    PBPeerToPeer api s none = .error .nilDereference := by
  simp [PBPeerToPeer, Message_Peer.GetId, h, Message_Peer.Addresses]

/-- One result per descriptor. -/
theorem convertEach_length {S P A E : Type} (api : PeerAPI S P A E) :
    ∀ (pbps : List (Option Message_Peer)) (s s1 : S) (rs : List (Except (Err E) P)),
      convertEach api s pbps = .ok (s1, rs) → rs.length = pbps.length := by
  intro pbps
  induction pbps with
  | nil =>
    intro s s1 rs h
    simp only [convertEach, Except.ok.injEq, Prod.mk.injEq] at h
    simp [← h.2]
  | cons pbp rest ih =>
    intro s s1 rs h
    unfold convertEach at h
    cases h1 : PBPeerToPeer api s pbp with
    | error pn => simp [h1] at h
    | ok r1 =>
      obtain ⟨s2, r⟩ := r1
      cases h2 : convertEach api s2 rest with
      | error pn => simp [h1, h2] at h
      | ok r2 =>
        obtain ⟨s3, rs2⟩ := r2
        simp only [h1, h2, Except.ok.injEq, Prod.mk.injEq] at h
        have := ih s2 s3 rs2 h2
        simp [← h.2, this]

/-- A batch without nil descriptors is converted without a panic. -/
theorem convertEach_returns {S P A E : Type} (api : PeerAPI S P A E) :
    ∀ (pbps : List (Option Message_Peer)) (s : S), (∀ pbp ∈ pbps, pbp ≠ none) →
      ∃ r, convertEach api s pbps = .ok r := by
  intro pbps
  induction pbps with
  | nil => intro s _; exact ⟨_, rfl⟩
  | cons pbp rest ih =>
    intro s h
    cases pbp with
    | none => exact absurd rfl (h none (by simp))
    | some d =>
      obtain ⟨⟨s1, r⟩, h1⟩ := PBPeerToPeer_some_returns api s d
      obtain ⟨⟨s2, rs⟩, h2⟩ := ih s1 (fun x hx => h x (by simp [hx]))
      exact ⟨(s2, r :: rs), by simp [convertEach, h1, h2]⟩

/-- The loop of PBPeersToPeers, started behind the errors epre already
recorded, appends the peers of the successful conversions and records the
error, or nil, of each one. -/
theorem PBPeersToPeers_loop_eq {S P A E : Type} (api : PeerAPI S P A E) :
    ∀ (pbps : List (Option Message_Peer)) (s : S) (peers : List P)
      (epre : List (Option (Err E))),
      PBPeersToPeers.loop api pbps epre.length s peers
          (epre ++ List.replicate pbps.length none)
        = (convertEach api s pbps).map (fun r =>
            (r.1, peers ++ r.2.filterMap peerOf, epre ++ r.2.map errorOf)) := by
  intro pbps
  induction pbps with
  | nil => intro s peers epre; simp [PBPeersToPeers.loop, convertEach, Except.map]
  | cons pbp rest ih =>
    intro s peers epre
    have hset : ∀ x : Option (Err E),
        (epre ++ List.replicate (pbp :: rest).length none).set epre.length x
          = (epre ++ [x]) ++ List.replicate rest.length none := by
      intro x; simp [List.set_append, List.replicate_succ]
    have hnone : epre ++ List.replicate (pbp :: rest).length (none : Option (Err E))
          = (epre ++ [none]) ++ List.replicate rest.length none := by
      simp [List.replicate_succ]
    have hi : ∀ x : Option (Err E), epre.length + 1 = (epre ++ [x]).length := by
      intro x; simp
    unfold PBPeersToPeers.loop convertEach
    cases h1 : PBPeerToPeer api s pbp with
    | error pn => simp [Except.map]
    | ok r1 =>
      obtain ⟨s1, r⟩ := r1
      cases r with
      | error err =>
        simp only [hset]
        rw [hi (some err), ih s1 peers (epre ++ [some err])]
        cases convertEach api s1 rest with
        | error pn => simp [Except.map]
        | ok r2 => simp [Except.map, peerOf, errorOf]
      | ok p =>
        simp only [hnone]
        rw [hi none, ih s1 (peers ++ [p]) (epre ++ [none])]
        cases convertEach api s1 rest with
        | error pn => simp [Except.map]
        | ok r2 => simp [Except.map, peerOf, errorOf]

/-- PBPeersToPeers returns the two slices read off the individual results, and
panics exactly when one of the individual conversions does. -/
theorem PBPeersToPeers_eq_collect {S P A E : Type} (api : PeerAPI S P A E) (s : S)
    (pbps : List (Option Message_Peer)) :
    PBPeersToPeers api s pbps = (convertEach api s pbps).map collect := by
  have h := PBPeersToPeers_loop_eq api pbps s [] []
  simp only [List.length_nil, List.nil_append] at h
  unfold PBPeersToPeers
  rw [h]; rfl

/-- Every result is either a peer or a non-nil error: the peers and the non-nil
errors together are as many as the results. -/
theorem length_peers_add_errors {P E : Type} (rs : List (Except E P)) :
    (rs.filterMap peerOf).length + ((rs.map errorOf).filter Option.isSome).length
      = rs.length := by
  induction rs with
  | nil => simp
  | cons r rest ih =>
    cases r with
    | error e => simp [peerOf, errorOf, List.filterMap_cons]; omega
    | ok p => simp [peerOf, errorOf, List.filterMap_cons]; omega

/-- The conversion of a batch that has a first descriptor. -/
theorem convertEach_cons {S P A E : Type} (api : PeerAPI S P A E) (s : S)
    (pbp : Option Message_Peer) (rest : List (Option Message_Peer)) :
    convertEach api s (pbp :: rest) =
      match PBPeerToPeer api s pbp with
      | .error pn => .error pn
      | .ok (s1, r) =>
        match convertEach api s1 rest with
        | .error pn => .error pn
        | .ok (s2, rs) => .ok (s2, r :: rs) := rfl

/-- Converting a batch in two parts: the second part starts from the store the
first part left. -/
theorem convertEach_append {S P A E : Type} (api : PeerAPI S P A E) :
    ∀ (xs ys : List (Option Message_Peer)) (s : S),
      convertEach api s (xs ++ ys) =
        match convertEach api s xs with
        | .error pn => .error pn
        | .ok (s1, r1) =>
          match convertEach api s1 ys with
          | .error pn => .error pn
          | .ok (s2, r2) => .ok (s2, r1 ++ r2) := by
  intro xs
  induction xs with
  | nil =>
    intro ys s
    simp only [List.nil_append, convertEach]
    cases convertEach api s ys with
    | error pn => rfl
    | ok r => rfl
  | cons x rest ih =>
    intro ys s
    rw [List.cons_append, convertEach_cons, convertEach_cons]
    cases PBPeerToPeer api s x with
    | error pn => rfl
    | ok r1 =>
      obtain ⟨s1, r⟩ := r1
      simp only [ih ys s1]
      cases convertEach api s1 rest with
      | error pn => rfl
      | ok r2 =>
        obtain ⟨s2, rs⟩ := r2
        simp only []
        cases convertEach api s2 ys with
        | error pn => rfl
        | ok r3 => rfl

/-- The loop of Addresses stops with an error when an address fails to parse. -/
theorem Addresses_loop_error {S P A E : Type} (api : PeerAPI S P A E) :
    ∀ (addrs : List String) (maddrs : List A),
      (∃ a ∈ addrs, ∃ e, api.NewMultiaddr a = .error e) →
      ∃ e, Message_Peer.Addresses.loop api addrs maddrs = .error e := by
  intro addrs
  induction addrs with
  | nil => intro maddrs h; simp at h
  | cons a rest ih =>
    intro maddrs h
    unfold Message_Peer.Addresses.loop
    cases ha : api.NewMultiaddr a with
    | error e => exact ⟨_, rfl⟩
    | ok m =>
      obtain ⟨b, hb, e, he⟩ := h
      rcases List.mem_cons.mp hb with rfl | hb1
      · rw [ha] at he; cases he
      · exact ih _ ⟨b, hb1, e, he⟩

/-- A descriptor with an address that fails to parse is converted to an error,
whatever the store. -/
theorem PBPeerToPeer_error_of_bad_address {S P A E : Type} (api : PeerAPI S P A E)
    (d : Message_Peer) (h : ∃ a ∈ d.Addrs, ∃ e, api.NewMultiaddr a = .error e) (s : S) :
    ∃ s1 err, PBPeerToPeer api s (some d) = .ok (s1, .error err) := by
  obtain ⟨e, he⟩ := Addresses_loop_error api d.Addrs [] h
  unfold PBPeerToPeer
  rcases api.FindOrCreate s (Message_Peer.GetId (some d)) with ⟨s1, e1 | p⟩
  · exact ⟨_, _, rfl⟩
  · simp only [Message_Peer.Addresses, he]
    exact ⟨_, _, rfl⟩

/-- C3: the peer list returned by PBPeersToPeers(ps, pbps) is exactly the list,
in input order, of the peers of those individual conversions by PBPeerToPeer
that succeed (both sides panic together, and neither does when no descriptor
is nil): a failing descriptor contributes no peer and removes no other one. -/
theorem PBPeersToPeers_peers_in_order {S P A E : Type} (api : PeerAPI S P A E) (s : S)
    (pbps : List (Option Message_Peer)) :
    (PBPeersToPeers api s pbps).map (fun r => r.2.1)
        = (convertEach api s pbps).map (fun r => r.2.filterMap peerOf) ∧
    ((∀ pbp ∈ pbps, pbp ≠ none) →
      ∃ s1 rs, convertEach api s pbps = .ok (s1, rs) ∧ rs.length = pbps.length ∧
        PBPeersToPeers api s pbps = .ok (s1, rs.filterMap peerOf, rs.map errorOf)) := by
  have heq := PBPeersToPeers_eq_collect api s pbps
  constructor
  · rw [heq]
    cases convertEach api s pbps with
    | error pn => rfl
    | ok r => rfl
  · intro hnn
    obtain ⟨⟨s1, rs⟩, h⟩ := convertEach_returns api pbps s hnn
    refine ⟨s1, rs, h, convertEach_length api pbps s s1 rs h, ?_⟩
    rw [heq, h]; rfl

/-- Witness of PBPeersToPeers_peers_in_order: seven descriptors of which the
fourth has a malformed address give the six other peers, in order. -/
theorem PBPeersToPeers_peers_in_order_witness :
    (PBPeersToPeers memAPI [] sevenPeers).map (fun r => r.2.1)
        = .ok ["p1", "p2", "p3", "p5", "p6", "p7"] ∧
    ∃ s1 rs, convertEach memAPI [] sevenPeers = .ok (s1, rs) ∧ rs.length = sevenPeers.length ∧
        PBPeersToPeers memAPI [] sevenPeers = .ok (s1, rs.filterMap peerOf, rs.map errorOf) :=
  ⟨(PBPeersToPeers_peers_in_order memAPI [] sevenPeers).1.trans (by decide),
   (PBPeersToPeers_peers_in_order memAPI [] sevenPeers).2 (by decide)⟩

/-- C4: the error list returned by PBPeersToPeers(ps, pbps) has the length of
pbps; its i-th entry is the error of the i-th individual conversion, non-nil
exactly when that conversion fails; and the number of returned peers plus the
number of non-nil errors is len(pbps). Without nil descriptors the call
returns. -/
theorem PBPeersToPeers_errors_per_entry {S P A E : Type} (api : PeerAPI S P A E) (s : S)
    (pbps : List (Option Message_Peer)) :
    (∀ s1 peers errs, PBPeersToPeers api s pbps = .ok (s1, peers, errs) →
      errs.length = pbps.length ∧
      (∃ rs, convertEach api s pbps = .ok (s1, rs) ∧ errs = rs.map errorOf ∧
        ∀ i, (∃ e, errs.get? i = some (some e)) ↔ (∃ e, rs.get? i = some (.error e))) ∧
      peers.length + (errs.filter Option.isSome).length = pbps.length) ∧
    ((∀ pbp ∈ pbps, pbp ≠ none) → ∃ r, PBPeersToPeers api s pbps = .ok r) := by
  have heq := PBPeersToPeers_eq_collect api s pbps
  constructor
  · intro s1 peers errs h
    rw [heq] at h
    cases hc : convertEach api s pbps with
    | error pn => rw [hc] at h; cases h
    | ok r =>
      obtain ⟨s2, rs⟩ := r
      rw [hc] at h
      simp only [Except.map, collect, Except.ok.injEq, Prod.mk.injEq] at h
      obtain ⟨rfl, rfl, rfl⟩ := h
      have hlen := convertEach_length api pbps s s2 rs hc
      refine ⟨by simp [hlen], ⟨rs, rfl, rfl, ?_⟩, ?_⟩
      · intro i
        simp only [List.get?_eq_getElem?, List.getElem?_map]
        cases hi : rs[i]? with
        | none => simp
        | some r =>
          cases r with
          | error e => simp [errorOf]
          | ok p => simp [errorOf]
      · rw [length_peers_add_errors, hlen]
  · intro hnn
    obtain ⟨r, h⟩ := convertEach_returns api pbps s hnn
    exact ⟨collect r, by rw [heq, h]; rfl⟩

/-- Witness of PBPeersToPeers_errors_per_entry: for the seven descriptors the
seven errors are nil but the fourth, and 6 + 1 = 7. -/
theorem PBPeersToPeers_errors_per_entry_witness :
    ([none, none, none, some (Err.badAddresses ["/ip4/10.0.0.4", "garbage"]), none, none,
        none] : List (Option (Err String))).length = sevenPeers.length ∧
    (["p1", "p2", "p3", "p5", "p6", "p7"] : List String).length +
      (([none, none, none, some (Err.badAddresses ["/ip4/10.0.0.4", "garbage"]), none, none,
        none] : List (Option (Err String))).filter Option.isSome).length = sevenPeers.length ∧
    ∃ r, PBPeersToPeers memAPI [] sevenPeers = .ok r :=
  have h := (PBPeersToPeers_errors_per_entry memAPI [] sevenPeers).1 sevenPeersStore
    ["p1", "p2", "p3", "p5", "p6", "p7"]
    [none, none, none, some (Err.badAddresses ["/ip4/10.0.0.4", "garbage"]), none, none, none]
    (by decide)
  ⟨h.1, h.2.2, (PBPeersToPeers_errors_per_entry memAPI [] sevenPeers).2 (by decide)⟩

/-- C5 (counterexample): a descriptor with an empty address list is converted
without error: PBPeerToPeer returns its peer, and PBPeersToPeers returns that
peer with a nil error. -/
theorem PBPeerToPeer_empty_addresses_succeeds :
    emptyAddrsPeer.Addrs = [] ∧
    PBPeerToPeer memAPI [] (some emptyAddrsPeer) = .ok ([("q", [])], .ok "q") ∧
    PBPeersToPeers memAPI [] [some emptyAddrsPeer] = .ok ([("q", [])], ["q"], [none]) := by
  decide

/-- C5 (amended): a descriptor with an address string that fails to parse makes
PBPeerToPeer return an error, so PBPeersToPeers records a per-entry error at
its index and takes no peer from it. A descriptor whose address list is empty
is not such a case: Addresses returns the empty list, and PBPeerToPeer returns
what FindOrCreate returns, the peer with no address added or the wrapped error
of the peerstore. -/
theorem PBPeerToPeer_address_errors {S P A E : Type} (api : PeerAPI S P A E) (s : S)
    (d : Message_Peer) :
    ((∃ a ∈ d.Addrs, ∃ e, api.NewMultiaddr a = .error e) →
      (∃ s1 err, PBPeerToPeer api s (some d) = .ok (s1, .error err)) ∧
      ∀ pre post s2 peers errs,
        PBPeersToPeers api s (pre ++ some d :: post) = .ok (s2, peers, errs) →
        ∃ rs1 err rs2, convertEach api s (pre ++ some d :: post)
            = .ok (s2, rs1 ++ .error err :: rs2) ∧
          rs1.length = pre.length ∧ errs.get? pre.length = some (some err) ∧
          peers = rs1.filterMap peerOf ++ rs2.filterMap peerOf) ∧
    (d.Addrs = [] →
      Message_Peer.Addresses api (some d) = .ok [] ∧
      PBPeerToPeer api s (some d) =
        .ok ((api.FindOrCreate s (Message_Peer.GetId (some d))).1,
          match (api.FindOrCreate s (Message_Peer.GetId (some d))).2 with
          | .ok p => .ok p
          | .error e => .error (.peerstoreFailed e))) := by
  constructor
  · intro hbad
    refine ⟨PBPeerToPeer_error_of_bad_address api d hbad s, ?_⟩
    intro pre post s2 peers errs h
    rw [PBPeersToPeers_eq_collect, convertEach_append] at h
    cases h1 : convertEach api s pre with
    | error pn => rw [h1] at h; cases h
    | ok r1 =>
      obtain ⟨sa, rs1⟩ := r1
      rw [h1] at h
      simp only [convertEach_cons] at h
      obtain ⟨sb, err, hd⟩ := PBPeerToPeer_error_of_bad_address api d hbad sa
      rw [hd] at h
      simp only [] at h
      cases h2 : convertEach api sb post with
      | error pn => rw [h2] at h; cases h
      | ok r2 =>
        obtain ⟨sc, rs2⟩ := r2
        rw [h2] at h
        simp only [Except.map, collect, Except.ok.injEq, Prod.mk.injEq] at h
        obtain ⟨rfl, rfl, rfl⟩ := h
        have hlen := convertEach_length api pre s sa rs1 h1
        refine ⟨rs1, err, rs2, ?_, hlen, ?_, ?_⟩
        · rw [convertEach_append, h1]
          simp only [convertEach_cons, hd, h2]
        · rw [← hlen, List.get?_eq_getElem?, List.map_append,
            List.getElem?_append_right (by simp)]
          simp [errorOf]
        · simp [List.filterMap_append, List.filterMap_cons, peerOf]
  · intro hd
    refine ⟨by simp [Message_Peer.Addresses, hd, Message_Peer.Addresses.loop], ?_⟩
    unfold PBPeerToPeer
    rcases api.FindOrCreate s (Message_Peer.GetId (some d)) with ⟨s1, e | p⟩
    · rfl
    · simp [Message_Peer.Addresses, hd, Message_Peer.Addresses.loop]

/-- Witness of PBPeerToPeer_address_errors: the descriptor with the address
"garbage" is converted to an error, the one without addresses to its peer. -/
theorem PBPeerToPeer_address_errors_witness :
    (∃ s1 err, PBPeerToPeer memAPI [] (some badAddrsPeer) = .ok (s1, .error err)) ∧
    (Message_Peer.Addresses memAPI (some emptyAddrsPeer) = .ok [] ∧
      PBPeerToPeer memAPI [] (some emptyAddrsPeer) =
        .ok ((memAPI.FindOrCreate [] (Message_Peer.GetId (some emptyAddrsPeer))).1,
          match (memAPI.FindOrCreate [] (Message_Peer.GetId (some emptyAddrsPeer))).2 with
          | .ok p => .ok p
          | .error e => .error (.peerstoreFailed e))) :=
  ⟨((PBPeerToPeer_address_errors memAPI [] badAddrsPeer).1
      ⟨"garbage", by decide, "invalid multiaddr", by decide⟩).1,
   (PBPeerToPeer_address_errors memAPI [] emptyAddrsPeer).2 (by decide)⟩

end DhtPb

/-! # Theorems: the lookup of a value -/

namespace Dht

/-- The response consumed next is one of those in flight. -/
theorem earliest_mem : ∀ (xs : List (Nat × Nat)) (y : Nat × Nat),
    earliest xs = some y → y ∈ xs := by
  intro xs
  induction xs with
  | nil => intro y h; simp [earliest] at h
  | cons x rest ih =>
    intro y h
    unfold earliest at h
    cases hr : earliest rest with
    | none =>
      rw [hr] at h
      simp only [Option.some.injEq] at h
      simp [← h]
    | some z =>
      rw [hr] at h
      by_cases hz : z.2 < x.2
      · simp only [hz, if_true, Option.some.injEq] at h
        rw [← h]; exact List.mem_cons_of_mem _ (ih z hr)
      · simp only [hz, if_false, Option.some.injEq] at h
        simp [← h]

/-- When every exchange is quiet until the deadline, nothing in flight is
answered or fails before the deadline. -/
theorem arrivals_after_deadline (net : Nat → Rpc) (deadline : Nat)
    (hquiet : ∀ p, quietUntil deadline (net p)) (st : QueryState) :
    ∀ y ∈ arrivals net st, deadline ≤ y.2 := by
  intro y hy
  simp only [arrivals, List.mem_filterMap] at hy
  obtain ⟨f, _, hf⟩ := hy
  have hq := hquiet f.1
  unfold arrival at hf
  cases hn : net f.1 with
  | reply delay r =>
    rw [hn] at hf hq
    simp only [Option.map_some', Option.some.injEq] at hf
    simp only [quietUntil] at hq
    rw [← hf]; simp only []; omega
  | transportError delay =>
    rw [hn] at hf hq
    simp only [Option.map_some', Option.some.injEq] at hf
    simp only [quietUntil] at hq
    rw [← hf]; simp only []; omega
  | silent => rw [hn] at hf; simp at hf

/-- A routing table with a peer in it seeds a frontier that is not empty. -/
theorem ClosestPeers_ne_nil (dist : Nat → Nat) (known : List Nat) (count : Nat)
    (hknown : known ≠ []) (hcount : 0 < count) : ClosestPeers dist known count ≠ [] := by
  intro h
  have hlen : (ClosestPeers dist known count).length = 0 := by rw [h]; rfl
  have hd : known.dedup ≠ [] := by
    intro hd; exact hknown (List.dedup_eq_nil _ |>.mp hd)
  have hpos : 0 < known.dedup.length := List.length_pos.mpr hd
  simp only [ClosestPeers, List.length_take, List.length_insertionSort] at hlen
  omega

/-- A round of Probing that starts with a frontier that is not empty and
nothing in flight, among peers quiet until the deadline, ends in TimedOut. -/
theorem step_times_out (cfg : Config) (dist : Nat → Nat) (net : Nat → Rpc) (deadline : Nat)
    (hquiet : ∀ p, quietUntil deadline (net p)) (st : QueryState)
    (hfr : st.frontier ≠ []) (hin : st.inflight = []) :
    step cfg dist net deadline st = .inl .TimedOut := by
  have hne : ¬ ((dispatch cfg st).inflight = [] ∧ (dispatch cfg st).frontier = []) := by
    rintro ⟨h1, h2⟩
    simp only [dispatch, hin, List.length_nil, Nat.sub_zero, List.nil_append,
      List.map_eq_nil_iff, List.take_eq_nil_iff, List.drop_eq_nil_iff] at h1 h2
    rcases h1 with h1 | h1
    · rw [h1] at h2
      exact hfr (List.length_eq_zero.mp (Nat.le_zero.mp h2))
    · exact hfr h1
  unfold step
  simp only [hne, if_false]
  cases he : earliest (arrivals net (dispatch cfg st)) with
  | none => rfl
  | some y =>
    obtain ⟨p, t⟩ := y
    have ht := arrivals_after_deadline net deadline hquiet _ _ (earliest_mem _ _ he)
    simp only [] at ht
    simp [ht]

/-- C10 (amended): when the node knows at least one peer (and K is positive)
and no request is answered or fails transport-side before the deadline,
GetValue returns Timeout, and not NotFound. -/
theorem GetValue_timeout_when_quiet (cfg : Config) (dist : Nat → Nat) (known : List Nat)
    (net : Nat → Rpc) (timeout fuel : Nat)
    (hknown : known ≠ []) (hK : 0 < cfg.K) (hquiet : ∀ p, quietUntil timeout (net p)) :
    GetValue cfg dist known net timeout (fuel + 1) = some .TimedOut ∧
    GetValue cfg dist known net timeout (fuel + 1) ≠ some .NotFound := by
  have hfr := ClosestPeers_ne_nil dist known cfg.K hknown hK
  have h : GetValue cfg dist known net timeout (fuel + 1) = some .TimedOut := by
    unfold GetValue
    simp only [hfr, if_false, probe]
    rw [step_times_out cfg dist net timeout hquiet _ hfr rfl]
  refine ⟨h, ?_⟩
  rw [h]; simp

/-- Witness of GetValue_timeout_when_quiet, the first part of TestGetFailures:
the node knows one peer, which never answers, and the timeout is 10. -/
theorem GetValue_timeout_when_quiet_witness :
    GetValue testConfig testDist [7] silentNet 10 (0 + 1) = some .TimedOut ∧
    GetValue testConfig testDist [7] silentNet 10 (0 + 1) ≠ some .NotFound :=
  GetValue_timeout_when_quiet testConfig testDist [7] silentNet 10 0 (by decide) (by decide)
    (fun _ => trivial)

/-- C10 (counterexample): no peer replies before the deadline 10, yet GetValue
returns NotFound: with an empty routing table at once, and with one known peer
when the request to it fails transport-side. -/
theorem GetValue_not_found_without_reply :
    (∀ p, noReplyUntil 10 (silentNet p)) ∧
    GetValue testConfig testDist [] silentNet 10 1 = some .NotFound ∧
    (∀ p, noReplyUntil 10 (failingNet p)) ∧
    GetValue testConfig testDist [7] failingNet 10 2 = some .NotFound :=
  ⟨fun _ => trivial, by decide, fun _ => trivial, by decide⟩

end Dht

/-! # Theorems: cluster level read from any raw value, defaults of the conversions -/

namespace DhtPb

/-- GetClusterLevel in terms of the raw level. -/
theorem getClusterLevel_eq (m : Message) :
    m.GetClusterLevel =
      if wrapInt32 (m.GetClusterLevelRaw - 1) < 0 then 0
      else wrapInt32 (m.GetClusterLevelRaw - 1) := rfl

/-- C12 (evaluation of the code): GetClusterLevel returns 0 when the raw level
is unset or lies from -2^31 + 1 to 1, and r - 1 for a raw level r from 1 to
2^31 - 1; for the raw level -2^31 the int32 subtraction wraps around to
2^31 - 1, which is not negative, so the result is 2^31 - 1 and not 0. -/
theorem getClusterLevel_by_raw (m : Message) :
    (m.ClusterLevelRaw = none → m.GetClusterLevel = 0) ∧
    (∀ r, m.ClusterLevelRaw = some r → -2147483648 < r → r ≤ 1 → m.GetClusterLevel = 0) ∧
    (∀ r, m.ClusterLevelRaw = some r → 1 ≤ r → r ≤ 2147483647 → m.GetClusterLevel = r - 1) ∧
    (m.ClusterLevelRaw = some (-2147483648) →
      m.GetClusterLevel = 2147483647 ∧ m.GetClusterLevel ≠ 0) := by
  refine ⟨?_, ?_, ?_, ?_⟩
  · intro h
    simp [getClusterLevel_eq, Message.GetClusterLevelRaw, h, wrapInt32]
  · intro r h h1 h2
    have hr : m.GetClusterLevelRaw = r := by simp [Message.GetClusterLevelRaw, h]
    rw [getClusterLevel_eq, hr, wrapInt32_of_range (r - 1) (by omega) (by omega)]
    split <;> omega
  · intro r h h1 h2
    have hr : m.GetClusterLevelRaw = r := by simp [Message.GetClusterLevelRaw, h]
    rw [getClusterLevel_eq, hr, wrapInt32_of_range (r - 1) (by omega) (by omega)]
    split <;> omega
  · intro h
    have hr : m.GetClusterLevelRaw = -2147483648 := by simp [Message.GetClusterLevelRaw, h]
    have hv : m.GetClusterLevel = 2147483647 := by
      rw [getClusterLevel_eq, hr]; decide
    exact ⟨hv, by rw [hv]; decide⟩

/-- Witness of getClusterLevel_by_raw: the raw levels unset, -5, 9 and -2^31. -/
theorem getClusterLevel_by_raw_witness :
    (rawLevelMessage none).GetClusterLevel = 0 ∧
    (rawLevelMessage (some (-5))).GetClusterLevel = 0 ∧
    (rawLevelMessage (some 9)).GetClusterLevel = 9 - 1 ∧
    ((rawLevelMessage (some (-2147483648))).GetClusterLevel = 2147483647 ∧
      (rawLevelMessage (some (-2147483648))).GetClusterLevel ≠ 0) :=
  ⟨(getClusterLevel_by_raw (rawLevelMessage none)).1 rfl,
   (getClusterLevel_by_raw (rawLevelMessage (some (-5)))).2.1 (-5) rfl (by decide) (by decide),
   (getClusterLevel_by_raw (rawLevelMessage (some 9))).2.2.1 9 rfl (by decide) (by decide),
   (getClusterLevel_by_raw (rawLevelMessage (some (-2147483648)))).2.2.2 rfl⟩

/-- C13: whatever the raw cluster level of a message, unset, zero, negative or
positive, GetClusterLevel returns a non-negative integer. -/
theorem getClusterLevel_nonneg (m : Message) : 0 ≤ m.GetClusterLevel := by
  rw [getClusterLevel_eq]
  split
  · exact le_refl 0
  · omega

/-- C18: both connectivity conversions take the default case outside the four
named values: ConnectionType returns NOT_CONNECTED for every connectedness that
is none of the four states, and Connectedness returns NotConnected for every
wire connection type that is none of the four wire values. -/
theorem conversions_default (k : ConnectednessConsts) (w : ConnectionTypeConsts) :
    (∀ c, c ∉ [k.NotConnected, k.Connected, k.CanConnect, k.CannotConnect] →
      ConnectionType k w c = w.NOT_CONNECTED) ∧
    (∀ t, t ∉ [w.NOT_CONNECTED, w.CONNECTED, w.CAN_CONNECT, w.CANNOT_CONNECT] →
      Connectedness k w t = k.NotConnected) := by
  constructor
  · intro c hc
    simp only [List.mem_cons, List.mem_singleton, List.not_mem_nil, or_false, not_or] at hc
    obtain ⟨h1, h2, h3, h4⟩ := hc
    simp [ConnectionType, h1, h2, h3, h4]
  · intro t ht
    simp only [List.mem_cons, List.mem_singleton, List.not_mem_nil, or_false, not_or] at ht
    obtain ⟨h1, h2, h3, h4⟩ := ht
    simp [Connectedness, h1, h2, h3, h4]

/-- Witness of conversions_default: the values 7 and -1 are none of the four. -/
theorem conversions_default_witness :
    ConnectionType iotaConnectedness wireConnectionTypes 7 = wireConnectionTypes.NOT_CONNECTED ∧
    Connectedness iotaConnectedness wireConnectionTypes (-1) = iotaConnectedness.NotConnected :=
  ⟨(conversions_default iotaConnectedness wireConnectionTypes).1 7 (by decide),
   (conversions_default iotaConnectedness wireConnectionTypes).2 (-1) (by decide)⟩

end DhtPb

/-! # Theorems: parsing of addresses, all-or-nothing registration -/

namespace DhtPb

/-- When the loop of Addresses succeeds, it has appended one parsed address for
each address string, in order. -/
theorem Addresses_loop_ok_inv {S P A E : Type} (api : PeerAPI S P A E) :
    ∀ (addrs : List String) (acc out : List A),
      Message_Peer.Addresses.loop api addrs acc = .ok out →
      ∃ ms, out = acc ++ ms ∧ List.Forall₂ (fun a x => api.NewMultiaddr a = .ok x) addrs ms := by
  intro addrs
  induction addrs with
  | nil =>
    intro acc out h
    simp only [Message_Peer.Addresses.loop, Except.ok.injEq] at h
    exact ⟨[], by simp [h], List.Forall₂.nil⟩
  | cons a rest ih =>
    intro acc out h
    unfold Message_Peer.Addresses.loop at h
    cases ha : api.NewMultiaddr a with
    | error e => rw [ha] at h; cases h
    | ok x =>
      rw [ha] at h
      obtain ⟨ms, hout, hall⟩ := ih (acc ++ [x]) out h
      exact ⟨x :: ms, by simp [hout], List.Forall₂.cons ha hall⟩

/-- When the loop of Addresses fails, some address string does not parse. -/
theorem Addresses_loop_error_inv {S P A E : Type} (api : PeerAPI S P A E) :
    ∀ (addrs : List String) (acc : List A) (e : Err E),
      Message_Peer.Addresses.loop api addrs acc = .error e →
      ∃ a ∈ addrs, ∃ e1, api.NewMultiaddr a = .error e1 := by
  intro addrs
  induction addrs with
  | nil => intro acc e h; simp [Message_Peer.Addresses.loop] at h
  | cons a rest ih =>
    intro acc e h
    unfold Message_Peer.Addresses.loop at h
    cases ha : api.NewMultiaddr a with
    | error e1 => exact ⟨a, by simp, e1, ha⟩
    | ok x =>
      rw [ha] at h
      obtain ⟨b, hb, e1, he1⟩ := ih (acc ++ [x]) e h
      exact ⟨b, List.mem_cons_of_mem _ hb, e1, he1⟩

/-- When every address string parses, the loop of Addresses succeeds. -/
theorem Addresses_loop_ok_of_all {S P A E : Type} (api : PeerAPI S P A E)
    (addrs : List String) (acc : List A)
    (h : ∀ a ∈ addrs, ∃ x, api.NewMultiaddr a = .ok x) :
    ∃ ms, Message_Peer.Addresses.loop api addrs acc = .ok (acc ++ ms) ∧
      List.Forall₂ (fun a x => api.NewMultiaddr a = .ok x) addrs ms := by
  cases hl : Message_Peer.Addresses.loop api addrs acc with
  | error e =>
    obtain ⟨a, ha, e1, he1⟩ := Addresses_loop_error_inv api addrs acc e hl
    obtain ⟨x, hx⟩ := h a ha
    rw [hx] at he1; cases he1
  | ok out =>
    obtain ⟨ms, hout, hall⟩ := Addresses_loop_ok_inv api addrs acc out hl
    exact ⟨ms, by rw [hout], hall⟩

/-- C15: Addresses returns an error if and only if the receiver is nil or one
of its address strings fails to parse; otherwise it returns a list as long as
Addrs whose i-th element is the parse of the i-th address string. -/
theorem Addresses_error_iff {S P A E : Type} (api : PeerAPI S P A E)
    (m : Option Message_Peer) :
    ((∃ e, Message_Peer.Addresses api m = .error e) ↔
      (m = none ∨ ∃ d, m = some d ∧ ∃ a ∈ d.Addrs, ∃ e1, api.NewMultiaddr a = .error e1)) ∧
    (¬ (m = none ∨ ∃ d, m = some d ∧ ∃ a ∈ d.Addrs, ∃ e1, api.NewMultiaddr a = .error e1) →
      ∃ d maddrs, m = some d ∧ Message_Peer.Addresses api m = .ok maddrs ∧
        maddrs.length = d.Addrs.length ∧
        List.Forall₂ (fun a x => api.NewMultiaddr a = .ok x) d.Addrs maddrs) := by
  cases m with
  | none =>
    refine ⟨⟨fun _ => Or.inl rfl, fun _ => ⟨_, rfl⟩⟩, ?_⟩
    intro h; exact absurd (Or.inl rfl) h
  | some d =>
    have hiff : (∃ e, Message_Peer.Addresses api (some d) = .error e) ↔
        ∃ a ∈ d.Addrs, ∃ e1, api.NewMultiaddr a = .error e1 := by
      constructor
      · rintro ⟨e, he⟩
        exact Addresses_loop_error_inv api d.Addrs [] e he
      · intro h
        exact Addresses_loop_error api d.Addrs [] h
    constructor
    · rw [hiff]
      constructor
      · intro h; exact Or.inr ⟨d, rfl, h⟩
      · rintro (h | ⟨d1, hd1, h⟩)
        · cases h
        · cases hd1; exact h
    · intro hnot
      have hall : ∀ a ∈ d.Addrs, ∃ x, api.NewMultiaddr a = .ok x := by
        intro a ha
        cases hx : api.NewMultiaddr a with
        | ok x => exact ⟨x, rfl⟩
        | error e1 => exact absurd (Or.inr ⟨d, rfl, a, ha, e1, hx⟩) hnot
      obtain ⟨ms, hok, hf⟩ := Addresses_loop_ok_of_all api d.Addrs [] hall
      refine ⟨d, ms, rfl, by simpa [Message_Peer.Addresses] using hok, ?_, hf⟩
      exact hf.length_eq.symm

/-- Witness of Addresses_error_iff: the descriptor with two good address
strings is parsed to a list of two. -/
theorem Addresses_error_iff_witness :
    ∃ d maddrs, some goodAddrsPeer = some d ∧
      Message_Peer.Addresses memAPI (some goodAddrsPeer) = .ok maddrs ∧
      maddrs.length = d.Addrs.length ∧
      List.Forall₂ (fun a x => memAPI.NewMultiaddr a = .ok x) d.Addrs maddrs :=
  (Addresses_error_iff memAPI (some goodAddrsPeer)).2 (by
    rintro (h | ⟨d, hd, a, ha, e1, he1⟩)
    · cases h
    · cases hd
      simp only [goodAddrsPeer, List.mem_cons, List.mem_singleton, List.not_mem_nil,
        or_false] at ha
      rcases ha with rfl | rfl
      · have h : memAPI.NewMultiaddr "/ip4/10.0.0.9" = .ok "/ip4/10.0.0.9" := by decide
        rw [h] at he1; cases he1
      · have h : memAPI.NewMultiaddr "/ip6/::1" = .ok "/ip6/::1" := by decide
        rw [h] at he1; cases he1)

/-- C14: PBPeerToPeer registers addresses all-or-nothing. When an address
string of the descriptor fails to parse, it returns an error and the store is
the one FindOrCreate left: no address was added. When every address string
parses and FindOrCreate returns a peer, it adds the parsed addresses, in order,
to that peer and returns it. -/
theorem PBPeerToPeer_all_or_nothing {S P A E : Type} (api : PeerAPI S P A E) (s : S)
    (d : Message_Peer) :
    ((∃ a ∈ d.Addrs, ∃ e, api.NewMultiaddr a = .error e) →
      ∃ err, PBPeerToPeer api s (some d) =
        .ok ((api.FindOrCreate s (Message_Peer.GetId (some d))).1, .error err)) ∧
    ((∀ a ∈ d.Addrs, ∃ x, api.NewMultiaddr a = .ok x) →
      ∀ s1 p, api.FindOrCreate s (Message_Peer.GetId (some d)) = (s1, .ok p) →
        ∃ maddrs, List.Forall₂ (fun a x => api.NewMultiaddr a = .ok x) d.Addrs maddrs ∧
          PBPeerToPeer api s (some d) =
            .ok (maddrs.foldl (fun st x => api.AddAddress st p x) s1, .ok p)) := by
  constructor
  · intro hbad
    obtain ⟨e, he⟩ := Addresses_loop_error api d.Addrs [] hbad
    unfold PBPeerToPeer
    rcases api.FindOrCreate s (Message_Peer.GetId (some d)) with ⟨s1, e1 | p⟩
    · exact ⟨_, rfl⟩
    · simp only [Message_Peer.Addresses, he]
      exact ⟨_, rfl⟩
  · intro hall s1 p hfind
    obtain ⟨ms, hok, hf⟩ := Addresses_loop_ok_of_all api d.Addrs [] hall
    refine ⟨ms, hf, ?_⟩
    simp only [List.nil_append] at hok
    simp only [PBPeerToPeer, hfind, Message_Peer.Addresses, hok]

/-- Witness of PBPeerToPeer_all_or_nothing: for the descriptor whose second
address is "garbage" the store only gains the empty record of the peer, the
first, valid address is not added; the descriptor with two good addresses has
both added to its peer. -/
theorem PBPeerToPeer_all_or_nothing_witness :
    ((memAPI.FindOrCreate [] (Message_Peer.GetId (some badAddrsPeer))).1 = [("p4", [])] ∧
      ∃ err, PBPeerToPeer memAPI [] (some badAddrsPeer) =
        .ok ((memAPI.FindOrCreate [] (Message_Peer.GetId (some badAddrsPeer))).1, .error err)) ∧
    ∃ maddrs, List.Forall₂ (fun a x => memAPI.NewMultiaddr a = .ok x) goodAddrsPeer.Addrs maddrs ∧
      PBPeerToPeer memAPI [] (some goodAddrsPeer) =
        .ok (maddrs.foldl (fun st x => memAPI.AddAddress st "p9" x) [("p9", [])], .ok "p9") :=
  ⟨⟨by decide, (PBPeerToPeer_all_or_nothing memAPI [] badAddrsPeer).1
      ⟨"garbage", by decide, "invalid multiaddr", by decide⟩⟩,
   (PBPeerToPeer_all_or_nothing memAPI [] goodAddrsPeer).2
      (by
        intro a ha
        simp only [goodAddrsPeer, List.mem_cons, List.mem_singleton, List.not_mem_nil,
          or_false] at ha
        rcases ha with rfl | rfl
        · exact ⟨"/ip4/10.0.0.9", by decide⟩
        · exact ⟨"/ip6/::1", by decide⟩)
      [("p9", [])] "p9" (by decide)⟩

end DhtPb

/-! # Theorems: the two outgoing conversions compared, and the round trip -/

namespace DhtPb

/-- PeersToPBPeers returns, without a panic, the descriptors of peerToPBPeer
with the Connection field set. -/
theorem PeersToPBPeers_eq_map {S P A E : Type} (k : ConnectednessConsts)
    (w : ConnectionTypeConsts) (api : PeerAPI S P A E) (s : S) (d : Network P)
    (peers : List P) :
    PeersToPBPeers k w api s d peers = .ok (peers.map (fun p =>
      some { peerToPBPeer api s p with
        Connection := some (ConnectionType k w (d.Connectedness p)) })) := by
  have h := PeersToPBPeers_loop_eq k w d (peers.map (peerToPBPeer api s)) peers [] []
    (by simp) rfl
  simp only [List.nil_append, List.length_nil, List.map_map] at h
  have hraw : RawPeersToPBPeers api s peers
      = List.map (some ∘ peerToPBPeer api s) peers := by
    rw [RawPeersToPBPeers_eq_map]; rfl
  unfold PeersToPBPeers
  simp only [hraw]
  rw [h]
  simp [List.zipWith_map_left, List.zipWith_same]

/-- C16: PeersToPBPeers(d, peers) differs from RawPeersToPBPeers(peers) only in
the Connection field: the two lists are as long as peers, the i-th descriptors
are both non-nil with equal Id and equal Addrs, and the one of
RawPeersToPBPeers has its Connection unset. -/
theorem PeersToPBPeers_differs_in_connection {S P A E : Type} (k : ConnectednessConsts)
    (w : ConnectionTypeConsts) (api : PeerAPI S P A E) (s : S) (d : Network P)
    (peers : List P) :
    ∃ pbps, PeersToPBPeers k w api s d peers = .ok pbps ∧
      pbps.length = (RawPeersToPBPeers api s peers).length ∧
      pbps.length = peers.length ∧
      List.Forall₂ (fun x y => ∃ a b, x = some a ∧ y = some b ∧ a.Id = b.Id ∧
          a.Addrs = b.Addrs ∧ b.Connection = none ∧ a = { b with Connection := a.Connection })
        pbps (RawPeersToPBPeers api s peers) := by
  refine ⟨_, PeersToPBPeers_eq_map k w api s d peers, ?_, ?_, ?_⟩
  · simp [RawPeersToPBPeers_eq_map]
  · simp
  · rw [RawPeersToPBPeers_eq_map]
    induction peers with
    | nil => exact List.Forall₂.nil
    | cons p rest ih =>
      simp only [List.map_cons]
      refine List.Forall₂.cons ⟨_, _, rfl, rfl, rfl, rfl, ?_, rfl⟩ ih
      simp [peerToPBPeer_eq]

/-- The descriptors of RawPeersToPBPeers are converted back without error when
their addresses parse and the peerstore finds or creates their identities: the
results are peers with the same identities, in order. -/
theorem convertEach_wire_peers {S P A E : Type} (api : PeerAPI S P A E) (s : S) :
    ∀ (peers : List P),
      (∀ p ∈ peers, ∀ a ∈ api.Addresses s p, ∃ x, api.NewMultiaddr (api.AddrString a) = .ok x) →
      (∀ p ∈ peers, ∀ s0, ∃ s1 q, api.FindOrCreate s0 (api.ID p) = (s1, .ok q) ∧
        api.ID q = api.ID p) →
      ∀ s0, ∃ (s2 : S) (qs : List P),
        convertEach api s0 (peers.map (fun p => some (peerToPBPeer api s p)))
          = .ok (s2, qs.map Except.ok) ∧ qs.map api.ID = peers.map api.ID := by
  intro peers
  induction peers with
  | nil => intro _ _ s0; exact ⟨s0, [], rfl, rfl⟩
  | cons p rest ih =>
    intro hparse hfind s0
    obtain ⟨s1, q, hq, hid⟩ := hfind p (by simp) s0
    have hall : ∀ a ∈ (peerToPBPeer api s p).Addrs, ∃ x, api.NewMultiaddr a = .ok x := by
      intro a ha
      rw [peerToPBPeer_eq] at ha
      simp only [List.mem_map] at ha
      obtain ⟨b, hb, rfl⟩ := ha
      exact hparse p (by simp) b hb
    obtain ⟨ms, hok, _⟩ := Addresses_loop_ok_of_all api (peerToPBPeer api s p).Addrs [] hall
    simp only [List.nil_append] at hok
    have hget : Message_Peer.GetId (some (peerToPBPeer api s p)) = api.ID p := by
      simp [Message_Peer.GetId, peerToPBPeer_eq]
    have hone : PBPeerToPeer api s0 (some (peerToPBPeer api s p))
        = .ok (ms.foldl (fun st x => api.AddAddress st q x) s1, .ok q) := by
      simp only [PBPeerToPeer, hget, hq, Message_Peer.Addresses, hok]
    obtain ⟨s2, qs, hrest, hids⟩ := ih (fun x hx => hparse x (by simp [hx]))
      (fun x hx => hfind x (by simp [hx])) (ms.foldl (fun st x => api.AddAddress st q x) s1)
    refine ⟨s2, q :: qs, ?_, by simp [hid, hids]⟩
    simp only [List.map_cons, convertEach_cons, hone, hrest]

/-- The peers of a list of successful conversions are all of them. -/
theorem peers_of_successes {P E : Type} (qs : List P) :
    List.filterMap peerOf (qs.map (Except.ok : P → Except E P)) = qs := by
  induction qs with
  | nil => rfl
  | cons q rest ih => simp only [List.map_cons, List.filterMap_cons, peerOf, ih]

/-- The errors of a list of successful conversions are all nil. -/
theorem errors_of_successes {P E : Type} (qs : List P) :
    List.map errorOf (qs.map (Except.ok : P → Except E P)) = List.replicate qs.length none := by
  induction qs with
  | nil => rfl
  | cons q rest ih =>
    simp only [List.map_cons, errorOf, ih, List.length_cons, List.replicate_succ]

/-- C17: round trip through the wire form. When the string form of every
address of the peers parses and FindOrCreate succeeds on their identities with
a record of the requested identity, PBPeersToPeers(ps, RawPeersToPBPeers(peers))
returns only nil errors and a peer list as long as peers whose i-th peer has
the identity of peers[i]. -/
theorem wire_round_trip {S P A E : Type} (api : PeerAPI S P A E) (s : S) (peers : List P)
    (hparse : ∀ p ∈ peers, ∀ a ∈ api.Addresses s p,
      ∃ x, api.NewMultiaddr (api.AddrString a) = .ok x)
    (hfind : ∀ p ∈ peers, ∀ s0, ∃ s1 q, api.FindOrCreate s0 (api.ID p) = (s1, .ok q) ∧
      api.ID q = api.ID p) :
    ∃ s2 qs, PBPeersToPeers api s (RawPeersToPBPeers api s peers)
        = .ok (s2, qs, List.replicate peers.length none) ∧
      qs.length = peers.length ∧ qs.map api.ID = peers.map api.ID := by
  obtain ⟨s2, qs, hconv, hids⟩ := convertEach_wire_peers api s peers hparse hfind s
  have hlen : qs.length = peers.length := by
    have := congrArg List.length hids
    simpa using this
  refine ⟨s2, qs, ?_, hlen, hids⟩
  rw [PBPeersToPeers_eq_collect, RawPeersToPBPeers_eq_map, hconv]
  simp only [Except.map, collect, peers_of_successes, errors_of_successes, hlen]

/-- Witness of wire_round_trip: the two peers of the example store, one with
two addresses and one with none, come back with their identities. -/
theorem wire_round_trip_witness :
    ∃ s2 qs, PBPeersToPeers memAPI twoPeersStore
        (RawPeersToPBPeers memAPI twoPeersStore ["a", "b"])
        = .ok (s2, qs, List.replicate ["a", "b"].length none) ∧
      qs.length = ["a", "b"].length ∧ qs.map memAPI.ID = ["a", "b"].map memAPI.ID :=
  wire_round_trip memAPI twoPeersStore ["a", "b"]
    (by
      intro p hp a ha
      simp only [List.mem_cons, List.mem_singleton, List.not_mem_nil, or_false] at hp
      rcases hp with rfl | rfl
      · have hA : memAPI.Addresses twoPeersStore "a" = ["/ip4/10.0.0.1", "/ip4/10.0.0.2"] := by
          decide
        rw [hA] at ha
        simp only [List.mem_cons, List.mem_singleton, List.not_mem_nil, or_false] at ha
        rcases ha with rfl | rfl
        · exact ⟨"/ip4/10.0.0.1", by decide⟩
        · exact ⟨"/ip4/10.0.0.2", by decide⟩
      · have hB : memAPI.Addresses twoPeersStore "b" = [] := by decide
        rw [hB] at ha
        cases ha)
    (by
      intro p hp s0
      simp only [List.mem_cons, List.mem_singleton, List.not_mem_nil, or_false] at hp
      rcases hp with rfl | rfl
      · by_cases hm : "a" ∈ s0.map Prod.fst
        · exact ⟨s0, "a", by simp [memAPI, memFindOrCreate, hm], rfl⟩
        · exact ⟨s0 ++ [("a", [])], "a", by simp [memAPI, memFindOrCreate, hm], rfl⟩
      · by_cases hm : "b" ∈ s0.map Prod.fst
        · exact ⟨s0, "b", by simp [memAPI, memFindOrCreate, hm], rfl⟩
        · exact ⟨s0 ++ [("b", [])], "b", by simp [memAPI, memFindOrCreate, hm], rfl⟩)

end DhtPb

/-! # Theorems: lookups in which every contacted peer answers without a value -/

namespace Dht

/-- One closer peer joining the frontier, as addCloser does for each of them. -/
theorem addCloser_cons (dist : Nat → Nat) (st : QueryState) (p : Nat) (rest : List Nat) :
    addCloser dist st (p :: rest) =
      addCloser dist
        (if p ∈ st.queried ∨ p ∈ st.frontier then st
         else { st with frontier := insertByDistance dist p st.frontier }) rest := rfl

/-- The closer peers of a response change nothing but the frontier: the clock
and the requests in flight stay as they are. -/
theorem addCloser_fields (dist : Nat → Nat) :
    ∀ (closer : List Nat) (st : QueryState),
      (addCloser dist st closer).now = st.now ∧
      (addCloser dist st closer).inflight = st.inflight := by
  intro closer
  induction closer with
  | nil => intro st; exact ⟨rfl, rfl⟩
  | cons p rest ih =>
    intro st
    rw [addCloser_cons]
    by_cases h : p ∈ st.queried ∨ p ∈ st.frontier
    · simp only [h, if_true]; exact ih st
    · simp only [h, if_false]
      exact ih _

/-- Some response is next when responses are due. -/
theorem earliest_isSome : ∀ xs : List (Nat × Nat), xs ≠ [] → ∃ y, earliest xs = some y := by
  intro xs h
  cases xs with
  | nil => exact absurd rfl h
  | cons x rest =>
    unfold earliest
    cases earliest rest with
    | none => exact ⟨x, rfl⟩
    | some y =>
      by_cases hy : y.2 < x.2
      · exact ⟨y, by simp [hy]⟩
      · exact ⟨x, by simp [hy]⟩

/-- The response consumed next is due no later than any other. -/
theorem earliest_le : ∀ (xs : List (Nat × Nat)) (y : Nat × Nat),
    earliest xs = some y → ∀ x ∈ xs, y.2 ≤ x.2 := by
  intro xs
  induction xs with
  | nil => intro y h; simp [earliest] at h
  | cons x rest ih =>
    intro y h x1 hx1
    unfold earliest at h
    cases hr : earliest rest with
    | none =>
      rw [hr] at h
      simp only [Option.some.injEq] at h
      have hrest : rest = [] := by
        by_contra hne
        obtain ⟨z, hz⟩ := earliest_isSome rest hne
        rw [hr] at hz; cases hz
      subst hrest
      simp only [List.mem_singleton] at hx1
      rw [← h, hx1]
    | some z =>
      rw [hr] at h
      have hz := ih z hr
      by_cases hlt : z.2 < x.2
      · simp only [hlt, if_true, Option.some.injEq] at h
        rw [← h]
        rcases List.mem_cons.mp hx1 with rfl | hm
        · omega
        · exact hz _ hm
      · simp only [hlt, if_false, Option.some.injEq] at h
        rw [← h]
        rcases List.mem_cons.mp hx1 with rfl | hm
        · exact le_refl _
        · have := hz _ hm; omega

/-- A response does not come before its request. -/
theorem arrival_ge (net : Nat → Rpc) (p sent t : Nat) (h : arrival net p sent = some t) :
    sent ≤ t := by
  unfold arrival at h
  cases hn : net p with
  | reply delay r => rw [hn] at h; simp only [Option.some.injEq] at h; omega
  | transportError delay => rw [hn] at h; simp only [Option.some.injEq] at h; omega
  | silent => rw [hn] at h; cases h

/-- With a positive fan-out, a dispatch that leaves nothing in flight leaves an
empty frontier too. -/
theorem dispatch_inflight_nil (cfg : Config) (st : QueryState) (halpha : 0 < cfg.alpha)
    (h : (dispatch cfg st).inflight = []) : (dispatch cfg st).frontier = [] := by
  simp only [dispatch, List.append_eq_nil, List.map_eq_nil_iff, List.take_eq_nil_iff] at h
  obtain ⟨h1, h2⟩ := h
  simp only [dispatch, h1, List.length_nil, Nat.sub_zero] at h2 ⊢
  rcases h2 with h2 | h2
  · omega
  · simp [h2]

/-- A round in which every request in flight is answered in time without a
value either ends the lookup in NotFound, or consumes the earliest response,
which comes before the deadline from a peer with a request in flight, and goes
on, the closer peers of a conforming response having joined the frontier. -/
theorem step_of_answered (cfg : Config) (dist : Nat → Nat) (net : Nat → Rpc) (deadline : Nat)
    (st : QueryState) (halpha : 0 < cfg.alpha)
    (h : answeredInTime net deadline (dispatch cfg st)) :
    step cfg dist net deadline st = .inl .NotFound ∨
    ∃ p t sent delay r, (p, sent) ∈ (dispatch cfg st).inflight ∧ net p = .reply delay r ∧
      r.value = none ∧ t = sent + delay ∧ t < deadline ∧
      earliest (arrivals net (dispatch cfg st)) = some (p, t) ∧
      step cfg dist net deadline st = .inr
        (if r.conforms then addCloser dist (consume (dispatch cfg st) p t) r.closerPeers
         else consume (dispatch cfg st) p t) := by
  by_cases hterm : (dispatch cfg st).inflight = [] ∧ (dispatch cfg st).frontier = []
  · left
    unfold step
    simp only [hterm, and_self, if_true]
  · right
    have hne : (dispatch cfg st).inflight ≠ [] := by
      intro hnil
      exact hterm ⟨hnil, dispatch_inflight_nil cfg st halpha hnil⟩
    have harr : arrivals net (dispatch cfg st) ≠ [] := by
      obtain ⟨f, hf⟩ := List.exists_mem_of_ne_nil _ hne
      obtain ⟨delay, r, hnet, _, _⟩ := h f hf
      intro hnil
      have hmem : (f.1, f.2 + delay) ∈ arrivals net (dispatch cfg st) := by
        simp only [arrivals, List.mem_filterMap]
        exact ⟨f, hf, by simp [arrival, hnet]⟩
      rw [hnil] at hmem
      cases hmem
    obtain ⟨y, hy⟩ := earliest_isSome _ harr
    have hymem := earliest_mem _ _ hy
    simp only [arrivals, List.mem_filterMap] at hymem
    obtain ⟨f, hf, hfy⟩ := hymem
    obtain ⟨delay, r, hnet, htime, hval⟩ := h f hf
    have hyeq : y = (f.1, f.2 + delay) := by
      simp only [arrival, hnet, Option.map_some', Option.some.injEq] at hfy
      exact hfy.symm
    subst hyeq
    refine ⟨f.1, f.2 + delay, f.2, delay, r, hf, hnet, hval, rfl, htime, hy, ?_⟩
    have hnot : ¬ deadline ≤ f.2 + delay := by omega
    unfold step
    simp only [hterm, if_false, hy, hnot, hnet, hval]
    cases r.conforms <;> rfl

/-- Dispatching keeps the requests in flight on schedule: they stay at most
alpha, and a request sent now is not answered before now. -/
theorem dispatch_onSchedule (cfg : Config) (net : Nat → Rpc) (st : QueryState)
    (h : onSchedule cfg net st) : onSchedule cfg net (dispatch cfg st) := by
  obtain ⟨hlen, harr⟩ := h
  constructor
  · simp only [dispatch, List.length_append, List.length_map, List.length_take]
    omega
  · intro f hf t ht
    simp only [dispatch] at hf
    rcases List.mem_append.mp hf with hf1 | hf2
    · exact harr f hf1 t ht
    · obtain ⟨q, _, rfl⟩ := List.mem_map.mp hf2
      exact arrival_ge net q st.now t ht

/-- Once the earliest response is consumed the requests left in flight are on
schedule: none of them is answered before the new present tick. -/
theorem consume_onSchedule (cfg : Config) (net : Nat → Rpc) (st : QueryState) (p t : Nat)
    (h : onSchedule cfg net st) (he : earliest (arrivals net st) = some (p, t)) :
    onSchedule cfg net (consume st p t) := by
  constructor
  · exact le_trans (List.length_filter_le _ _) h.1
  · intro f hf t1 ht1
    simp only [consume] at hf
    have hmem : (f.1, t1) ∈ arrivals net st := by
      simp only [arrivals, List.mem_filterMap]
      exact ⟨f, List.mem_of_mem_filter hf, by simp [ht1]⟩
    exact earliest_le _ _ he _ hmem

/-- Two filters of a list can be taken in either order. -/
theorem filter_swap {X : Type} (a b : X → Bool) (l : List X) :
    List.filter a (List.filter b l) = List.filter b (List.filter a l) := by
  rw [List.filter_filter, List.filter_filter]
  congr 1
  funext x
  exact Bool.and_comm _ _

/-- Consuming the earliest response lowers the bound on the rounds to come,
when every response takes at least one tick: either the clock advances, or one
response less is due at the present tick. -/
theorem consume_roundsLeft (cfg : Config) (net : Nat → Rpc) (deadline : Nat)
    (st : QueryState) (p t sent delay : Nat) (r : Reply)
    (hdelay : ∀ q d r1, net q = .reply d r1 → 0 < d)
    (hsched : onSchedule cfg net st)
    (hanswered : answeredInTime net deadline (dispatch cfg st))
    (hin : (p, sent) ∈ (dispatch cfg st).inflight) (hnet : net p = .reply delay r)
    (ht : t = sent + delay) (hlt : t < deadline) :
    roundsLeft cfg net deadline (consume (dispatch cfg st) p t)
      < roundsLeft cfg net deadline st := by
  have hsched1 := dispatch_onSchedule cfg net st hsched
  have harrp : arrival net p sent = some t := by simp [arrival, hnet, ht]
  have hge : st.now ≤ t := hsched1.2 (p, sent) hin t harrp
  by_cases hadv : st.now < t
  · have hd : dueNow net (consume (dispatch cfg st) p t) ≤ cfg.alpha := by
      unfold dueNow
      exact le_trans (List.length_filter_le _ _)
        (le_trans (List.length_filter_le _ _) hsched1.1)
    have hmul : (deadline - t + 1) * (cfg.alpha + 1) ≤ (deadline - st.now) * (cfg.alpha + 1) :=
      Nat.mul_le_mul_right _ (by omega)
    have hexp : (deadline - t + 1) * (cfg.alpha + 1)
        = (deadline - t) * (cfg.alpha + 1) + (cfg.alpha + 1) := by
      rw [Nat.add_mul, Nat.one_mul]
    rw [hexp] at hmul
    have hnow : (consume (dispatch cfg st) p t).now = t := rfl
    simp only [roundsLeft, hnow]
    omega
  · have hte : t = st.now := by omega
    subst hte
    have hnone : List.filter (fun f : Nat × Nat => decide (arrival net f.1 f.2 = some st.now))
        (List.map (fun q => (q, st.now))
          (List.take (cfg.alpha - st.inflight.length) st.frontier)) = [] := by
      rw [List.filter_eq_nil_iff]
      intro f hf
      have hf1 : f ∈ (dispatch cfg st).inflight := by
        simp only [dispatch]
        exact List.mem_append.mpr (Or.inr hf)
      obtain ⟨q, _, rfl⟩ := List.mem_map.mp hf
      obtain ⟨d, r1, hn, _, _⟩ := hanswered _ hf1
      have hpos := hdelay q d r1 hn
      simp only [arrival, hn, decide_eq_true_eq, Option.some.injEq]
      omega
    have hsame : List.filter (fun f : Nat × Nat => decide (arrival net f.1 f.2 = some st.now))
        (dispatch cfg st).inflight
        = List.filter (fun f : Nat × Nat => decide (arrival net f.1 f.2 = some st.now))
            st.inflight := by
      simp only [dispatch, List.filter_append, hnone, List.append_nil]
    have hmem : (p, sent) ∈ List.filter
        (fun f : Nat × Nat => decide (arrival net f.1 f.2 = some st.now)) st.inflight := by
      rw [← hsame]
      exact List.mem_filter.mpr ⟨hin, by simp [harrp]⟩
    have hless : (List.filter (fun f : Nat × Nat => decide (f.1 ≠ p))
        (List.filter (fun f : Nat × Nat => decide (arrival net f.1 f.2 = some st.now))
          st.inflight)).length
        < (List.filter (fun f : Nat × Nat => decide (arrival net f.1 f.2 = some st.now))
          st.inflight).length := by
      apply List.length_filter_lt_length_iff_exists.mpr
      exact ⟨(p, sent), hmem, by simp⟩
    have hdue : dueNow net (consume (dispatch cfg st) p st.now)
        = (List.filter (fun f : Nat × Nat => decide (f.1 ≠ p))
            (List.filter (fun f : Nat × Nat => decide (arrival net f.1 f.2 = some st.now))
              st.inflight)).length := by
      simp only [dueNow, consume]
      rw [filter_swap, hsame]
    have hdue0 : dueNow net st
        = (List.filter (fun f : Nat × Nat => decide (arrival net f.1 f.2 = some st.now))
            st.inflight).length := rfl
    show (deadline - st.now) * (cfg.alpha + 1) + dueNow net (consume (dispatch cfg st) p st.now)
      < (deadline - st.now) * (cfg.alpha + 1) + dueNow net st
    rw [hdue, hdue0]
    omega

/-- The schedule and the bound on the rounds to come depend on the clock and on
the requests in flight only, which the closer peers of a response leave alone. -/
theorem addCloser_schedule (cfg : Config) (dist : Nat → Nat) (net : Nat → Rpc) (deadline : Nat)
    (st : QueryState) (closer : List Nat) :
    (onSchedule cfg net st → onSchedule cfg net (addCloser dist st closer)) ∧
    roundsLeft cfg net deadline (addCloser dist st closer) = roundsLeft cfg net deadline st := by
  obtain ⟨h1, h2⟩ := addCloser_fields dist closer st
  constructor
  · intro h
    simp only [onSchedule, h1, h2]
    exact h
  · simp only [roundsLeft, dueNow, h1, h2]

/-- GetValue in terms of the state in which Probing starts. -/
theorem GetValue_eq (cfg : Config) (dist : Nat → Nat) (known : List Nat) (net : Nat → Rpc)
    (timeout fuel : Nat) :
    GetValue cfg dist known net timeout fuel =
      if ClosestPeers dist known cfg.K = [] then some .NotFound
      else probe cfg dist net timeout fuel (seedState cfg dist known) := rfl

/-- When every contacted peer answers in time from a state, the requests in
flight after its dispatch are answered in time. -/
theorem answered_now (cfg : Config) (dist : Nat → Nat) (net : Nat → Rpc) (deadline : Nat)
    (st : QueryState) (h : everyContactedPeerRepliesEmpty cfg dist net deadline st) :
    answeredInTime net deadline (dispatch cfg st) := h 0 st rfl

/-- When every contacted peer answers in time from a state, so it does from the
state one round later. -/
theorem answered_next (cfg : Config) (dist : Nat → Nat) (net : Nat → Rpc) (deadline : Nat)
    (st st1 : QueryState) (h : everyContactedPeerRepliesEmpty cfg dist net deadline st)
    (hstep : step cfg dist net deadline st = .inr st1) :
    everyContactedPeerRepliesEmpty cfg dist net deadline st1 := by
  intro n st2 hs
  apply h (n + 1) st2
  simp only [stateAfter, hstep, hs]

/-- Probing among peers that all answer in time without a value has no other
end than NotFound. -/
theorem probe_none_or_not_found (cfg : Config) (dist : Nat → Nat) (net : Nat → Rpc)
    (deadline : Nat) (halpha : 0 < cfg.alpha) :
    ∀ (fuel : Nat) (st : QueryState), everyContactedPeerRepliesEmpty cfg dist net deadline st →
      probe cfg dist net deadline fuel st = none ∨
      probe cfg dist net deadline fuel st = some .NotFound := by
  intro fuel
  induction fuel with
  | zero => intro st _; left; rfl
  | succ fuel ih =>
    intro st h
    rcases step_of_answered cfg dist net deadline st halpha
      (answered_now cfg dist net deadline st h) with
      hs | ⟨p, t, sent, delay, r, _, _, _, _, _, _, hs⟩
    · right; simp only [probe, hs]
    · have hnext := answered_next cfg dist net deadline st _ h hs
      simp only [probe, hs]
      exact ih _ hnext

/-- Probing among peers that all answer in time without a value, each response
taking at least one tick, ends in NotFound once the rounds allowed exceed the
bound on the rounds to come. -/
theorem probe_not_found (cfg : Config) (dist : Nat → Nat) (net : Nat → Rpc)
    (deadline : Nat) (halpha : 0 < cfg.alpha)
    (hdelay : ∀ q d r1, net q = .reply d r1 → 0 < d) :
    ∀ (fuel : Nat) (st : QueryState), onSchedule cfg net st →
      everyContactedPeerRepliesEmpty cfg dist net deadline st →
      roundsLeft cfg net deadline st < fuel →
      probe cfg dist net deadline fuel st = some .NotFound := by
  intro fuel
  induction fuel with
  | zero => intro st _ _ h; omega
  | succ fuel ih =>
    intro st hsched h hfuel
    have hans := answered_now cfg dist net deadline st h
    rcases step_of_answered cfg dist net deadline st halpha hans with
      hs | ⟨p, t, sent, delay, r, hin, hnet, _, ht, hlt, he, hs⟩
    · simp only [probe, hs]
    · have hnext := answered_next cfg dist net deadline st _ h hs
      have hsched1 := consume_onSchedule cfg net (dispatch cfg st) p t
        (dispatch_onSchedule cfg net st hsched) he
      have hless := consume_roundsLeft cfg net deadline st p t sent delay r hdelay hsched hans
        hin hnet ht hlt
      have hadd := addCloser_schedule cfg dist net deadline (consume (dispatch cfg st) p t)
        r.closerPeers
      simp only [probe, hs]
      apply ih _ _ hnext
      · cases hc : r.conforms with
        | false => simp only [Bool.false_eq_true, if_false]; omega
        | true => simp only [if_true, hadd.2]; omega
      · cases hc : r.conforms with
        | false => simpa using hsched1
        | true => simpa using hadd.1 hsched1

/-- C11: in a lookup with a positive fan-out in which every contacted peer
replies before the deadline with a response carrying no value, with or without
closer peers, GetValue never returns Timeout; and, a response taking at least
one tick, GetValue terminates and returns NotFound (as soon as more than
timeout * (alpha + 1) rounds are allowed). -/
theorem GetValue_not_found_when_all_reply_empty (cfg : Config) (dist : Nat → Nat)
    (known : List Nat) (net : Nat → Rpc) (timeout : Nat)
    (halpha : 0 < cfg.alpha)
    (hreply : everyContactedPeerRepliesEmpty cfg dist net timeout (seedState cfg dist known)) :
    (∀ fuel, GetValue cfg dist known net timeout fuel ≠ some .TimedOut) ∧
    ((∀ p delay r, net p = .reply delay r → 0 < delay) →
      ∀ fuel, timeout * (cfg.alpha + 1) < fuel →
        GetValue cfg dist known net timeout fuel = some .NotFound) := by
  constructor
  · intro fuel
    rw [GetValue_eq]
    split
    · simp
    · rcases probe_none_or_not_found cfg dist net timeout halpha fuel _ hreply with h | h
      · rw [h]; simp
      · rw [h]; simp
  · intro hdelay fuel hfuel
    rw [GetValue_eq]
    split
    · rfl
    · apply probe_not_found cfg dist net timeout halpha hdelay fuel _ _ hreply
      · simp only [roundsLeft, dueNow, seedState, List.filter_nil, List.length_nil,
          Nat.sub_zero, Nat.add_zero]
        exact hfuel
      · constructor
        · simp [seedState]
        · intro f hf
          simp [seedState] at hf

/-- In the second part of TestGetFailures the one contacted peer answers in
time without a value, and nobody is contacted after it. -/
theorem emptyReply_lookup_answered :
    everyContactedPeerRepliesEmpty testConfig testDist emptyReplyNet 1000
      (seedState testConfig testDist [7]) := by
  have h1 : step testConfig testDist emptyReplyNet 1000 (seedState testConfig testDist [7])
      = .inr { now := 1, frontier := [], queried := [7], inflight := [], replied := 1 } := by
    decide
  have h2 : step testConfig testDist emptyReplyNet 1000
      { now := 1, frontier := [], queried := [7], inflight := [], replied := 1 }
      = .inl .NotFound := by
    decide
  intro n st hs
  match n with
  | 0 =>
    simp only [stateAfter, Option.some.injEq] at hs
    subst hs
    have hd : (dispatch testConfig (seedState testConfig testDist [7])).inflight = [(7, 0)] := by
      decide
    intro f hf
    rw [hd] at hf
    simp only [List.mem_singleton] at hf
    subst hf
    exact ⟨1, _, rfl, by decide, rfl⟩
  | 1 =>
    simp only [stateAfter, h1, Option.some.injEq] at hs
    subst hs
    intro f hf
    have hd : (dispatch testConfig
        { now := 1, frontier := [], queried := [7], inflight := [], replied := 1 }).inflight
        = [] := by decide
    rw [hd] at hf
    cases hf
  | n + 2 =>
    simp only [stateAfter, h1, h2] at hs
    cases hs

/-- Among the peers of relayNet the lookup that knows peer 7 contacts peer 7,
then peer 8, which it learns from peer 7; both answer in time without a value,
and nobody is contacted after them. -/
theorem relay_lookup_answered :
    everyContactedPeerRepliesEmpty testConfig testDist relayNet 10
      (seedState testConfig testDist [7]) := by
  have h1 : step testConfig testDist relayNet 10 (seedState testConfig testDist [7])
      = .inr { now := 1, frontier := [8], queried := [7], inflight := [], replied := 1 } := by
    decide
  have h2 : step testConfig testDist relayNet 10
      { now := 1, frontier := [8], queried := [7], inflight := [], replied := 1 }
      = .inr { now := 3, frontier := [], queried := [7, 8], inflight := [], replied := 2 } := by
    decide
  have h3 : step testConfig testDist relayNet 10
      { now := 3, frontier := [], queried := [7, 8], inflight := [], replied := 2 }
      = .inl .NotFound := by
    decide
  intro n st hs
  match n with
  | 0 =>
    simp only [stateAfter, Option.some.injEq] at hs
    subst hs
    have hd : (dispatch testConfig (seedState testConfig testDist [7])).inflight = [(7, 0)] := by
      decide
    intro f hf
    rw [hd] at hf
    simp only [List.mem_singleton] at hf
    subst hf
    exact ⟨1, _, rfl, by decide, rfl⟩
  | 1 =>
    simp only [stateAfter, h1, Option.some.injEq] at hs
    subst hs
    have hd : (dispatch testConfig
        { now := 1, frontier := [8], queried := [7], inflight := [], replied := 1 }).inflight
        = [(8, 1)] := by decide
    intro f hf
    rw [hd] at hf
    simp only [List.mem_singleton] at hf
    subst hf
    exact ⟨2, _, rfl, by decide, rfl⟩
  | 2 =>
    simp only [stateAfter, h1, h2, Option.some.injEq] at hs
    subst hs
    intro f hf
    have hd : (dispatch testConfig
        { now := 3, frontier := [], queried := [7, 8], inflight := [], replied := 2 }).inflight
        = [] := by decide
    rw [hd] at hf
    cases hf
  | n + 3 =>
    simp only [stateAfter, h1, h2, h3] at hs
    cases hs

/-- Witness of GetValue_not_found_when_all_reply_empty. First the second part
of TestGetFailures: the one known peer answers with the type echoed, no value
and no closer peers, and the timeout is 1000. Then a lookup with closer peers:
peer 7 names peer 8, which names peer 7 again, and the timeout is 10. -/
theorem GetValue_not_found_when_all_reply_empty_witness :
    (GetValue testConfig testDist [7] emptyReplyNet 1000 4001 ≠ some .TimedOut ∧
      GetValue testConfig testDist [7] emptyReplyNet 1000 4001 = some .NotFound) ∧
    (GetValue testConfig testDist [7] relayNet 10 41 ≠ some .TimedOut ∧
      GetValue testConfig testDist [7] relayNet 10 41 = some .NotFound) :=
  have h1 := GetValue_not_found_when_all_reply_empty testConfig testDist [7] emptyReplyNet 1000
    (by decide) emptyReply_lookup_answered
  have h2 := GetValue_not_found_when_all_reply_empty testConfig testDist [7] relayNet 10
    (by decide) relay_lookup_answered
  ⟨⟨h1.1 4001, h1.2 (by
      intro p delay r h
      simp only [emptyReplyNet, Rpc.reply.injEq] at h
      omega) 4001 (by decide)⟩,
   ⟨h2.1 41, h2.2 (by
      intro p delay r h
      simp only [relayNet] at h
      split at h
      · simp only [Rpc.reply.injEq] at h; omega
      · split at h
        · simp only [Rpc.reply.injEq] at h; omega
        · simp only [Rpc.reply.injEq] at h; omega) 41 (by decide)⟩⟩

end Dht
